import Mathlib

/-!
# osync.Event: a shallow embedding

The Go type `Event` (src/event.go) is a resettable broadcast event built from
three atomically accessed fields: `state` (uint32), `readerCount` (int32) and
`channel` (a pointer to the current `chan struct{}`).

* `Mem` is the memory the operations act on: the three fields, plus the heap
  of channels the event has allocated (for each address, whether that channel
  has been closed).
* `Event.Set`, `Event.Clear`, `Event.IsSet`, `Event.Wait`, `Event.WaitTimeout`
  are the operations run alone, as sequential code.
* `Thread` / `Thread.step` split every operation into its atomic steps, one
  per `sync/atomic` call or channel operation, and `Sys.run` interleaves any
  number of goroutines.

The mutex-guarded containers `Set` and `Map` (src/set.go, src/map.go) and the
timer helpers `NewThrottle` and `NewDebouncer` (src/control/control.go) follow,
each with its own introduction.

Modelling choices for `Event`:

* the atomics are sequentially consistent, as in the Go memory model, so an
  execution is an interleaving of atomic steps;
* `make(chan struct{})` touches nothing another goroutine can see before the
  pointer is published, so it is one step together with the `SwapPointer` that
  follows it; channel addresses are indices into `Mem.closed`;
* real time is not modelled: the timer of `WaitTimeout` may fire at any step,
  which the scheduler decides (`fire`); the duration is carried along only as
  the parameter of the call;
* closing a closed channel panics in Go; the step leads to `Thread.crashed`.
-/

namespace Osync

/-! ## Memory and the `sync/atomic` primitives -/

/-- Memory of one `Event`: its fields and the channels it has allocated.
`closed[a]` tells whether the channel at address `a` has been closed. -/
structure Mem where
  state : Nat
  readerCount : Int
  channel : Nat
  closed : List Bool
  deriving DecidableEq, Repr

/-- Two's complement wrap-around of an `int32`. -/
def wrap32 (x : Int) : Int := (x + 2147483648) % 4294967296 - 2147483648

/-- The call `atomic.LoadUint32(&e.state)`. -/
def Mem.LoadUint32 (m : Mem) : Nat := m.state

/-- The call `atomic.StoreUint32(&e.state, v)`. -/
def Mem.StoreUint32 (m : Mem) (v : Nat) : Mem := { m with state := v }

/-- The call `atomic.CompareAndSwapUint32(&e.state, old, new)`. -/
def Mem.CompareAndSwapUint32 (m : Mem) (old new : Nat) : Bool × Mem :=
  if m.state = old then (true, { m with state := new }) else (false, m)

/-- The call `atomic.LoadInt32(&e.readerCount)`. -/
def Mem.LoadInt32 (m : Mem) : Int := m.readerCount

/-- The call `atomic.AddInt32(&e.readerCount, delta)`. -/
def Mem.AddInt32 (m : Mem) (delta : Int) : Mem :=
  { m with readerCount := wrap32 (m.readerCount + delta) }

/-- The call `atomic.LoadPointer(&e.channel)`. -/
def Mem.LoadPointer (m : Mem) : Nat := m.channel

/-- The call `atomic.SwapPointer(&e.channel, new)`: returns the old pointer. -/
def Mem.SwapPointer (m : Mem) (new : Nat) : Nat × Mem :=
  (m.channel, { m with channel := new })

/-- The statement `ch := make(chan struct{})`: a fresh, unclosed channel at the
next free address. -/
def Mem.makeChan (m : Mem) : Nat × Mem :=
  (m.closed.length, { m with closed := m.closed ++ [false] })

/-- Whether the channel at address `a` has been closed. A receive from an
unbuffered channel nobody sends on proceeds exactly when it is closed. -/
def Mem.isClosed (m : Mem) (a : Nat) : Bool := m.closed.getD a false

/-- The statement `close(ch)`: `none` is the run-time panic Go raises on closing
a closed channel (or a channel that does not exist). -/
def Mem.close (m : Mem) (a : Nat) : Option Mem :=
  match m.closed[a]? with
  | some false => some { m with closed := m.closed.set a true }
  | _ => none

/-! ## The operations, run alone -/

/-- Function `NewEvent`: one fresh channel, all other fields zero. -/
def NewEvent : Mem :=
  let (ch, m) := Mem.makeChan { state := 0, readerCount := 0, channel := 0, closed := [] }
  { m with channel := ch }

/-- Method `Event.broadcast`: install a new channel, close the old one. -/
def Event.broadcast (m : Mem) : Option Mem :=
  let (newCh, m1) := m.makeChan
  let (oldChPtr, m2) := m1.SwapPointer newCh
  m2.close oldChPtr

/-- Method `Event.notifyChan`: register as a reader, return the current channel. -/
def Event.notifyChan (m : Mem) : Nat × Mem :=
  let m1 := m.AddInt32 1
  (m1.LoadPointer, m1)

/-- Method `Event.IsSet`. -/
def Event.IsSet (m : Mem) : Bool := m.LoadUint32 == 1

/-- Method `Event.Set`; `none` if the broadcast panics. -/
def Event.Set (m : Mem) : Option Mem :=
  let (swapped, m1) := m.CompareAndSwapUint32 0 1
  if swapped && decide (m1.LoadInt32 > 0) then Event.broadcast m1 else some m1

/-- Method `Event.Clear`. -/
def Event.Clear (m : Mem) : Mem := m.StoreUint32 0

/-- Outcome of a blocking call run alone. -/
inductive Outcome (α : Type) where
  /-- the call returned `val`, leaving memory `mem` -/
  | returned (val : α) (mem : Mem)
  /-- the call is blocked on a channel nobody else will close -/
  | blocked (mem : Mem)
  /-- the loop has not finished within the given number of iterations -/
  | running (mem : Mem)
  deriving DecidableEq, Repr

/-- Method `Event.Wait` run alone, for at most `fuel` iterations of its loop. With no
other goroutine running, a receive from an unclosed channel blocks forever. -/
def Event.Wait : Nat → Mem → Outcome Unit
  | 0, m => .running m
  | fuel + 1, m =>
    if m.LoadUint32 == 1 then .returned () m
    else
      let (ch, m1) := Event.notifyChan m
      if m1.isClosed ch then Event.Wait fuel (m1.AddInt32 (-1))
      else .blocked m1

/-- Method `Event.WaitTimeout` run alone, for at most `fuel` iterations of its loop,
starting with the local `isTimeout`. In the `select`, a channel that is not
closed cannot become so (nobody else runs), hence the timer case is taken; when
the channel is already closed both cases are ready and `timerFirst` decides. -/
def Event.WaitTimeoutLoop (timeout : Int) (timerFirst : Bool) : Nat → Bool → Mem → Outcome Bool
  | 0, _, m => .running m
  | fuel + 1, isTimeout, m =>
    if m.LoadUint32 == 1 then .returned true m
    else if isTimeout then .returned false m
    else
      let (ch, m1) := Event.notifyChan m
      let fired := !m1.isClosed ch || timerFirst
      Event.WaitTimeoutLoop timeout timerFirst fuel fired (m1.AddInt32 (-1))

/-- Method `Event.WaitTimeout`: the loop entered with `isTimeout := false`. -/
def Event.WaitTimeout (timeout : Int) (timerFirst : Bool) (fuel : Nat) (m : Mem) : Outcome Bool :=
  Event.WaitTimeoutLoop timeout timerFirst fuel false m

/-! ## The operations as interleaved atomic steps -/

/-- The exported operations of `Event`. -/
inductive Op where
  | Set
  | Clear
  | IsSet
  | Wait
  | WaitTimeout (timeout : Int)
  deriving DecidableEq, Repr

/-- Control point of a goroutine inside one call: the next atomic step it will
take, together with the locals that are live there. -/
inductive Thread where
  /-- In `Set`: about to `CompareAndSwapUint32(&e.state, 0, 1)` -/
  | setCAS
  /-- In `Set`: the swap succeeded, about to `LoadInt32(&e.readerCount)` -/
  | setLoad
  /-- In `broadcast`: about to make the new channel and `SwapPointer` it in -/
  | setSwap
  /-- In `broadcast`: about to `close` the channel at `oldChPtr` -/
  | setClose (oldChPtr : Nat)
  /-- In `Clear`: about to `StoreUint32(&e.state, 0)` -/
  | clearStore
  /-- In `IsSet`: about to `LoadUint32(&e.state)` -/
  | isSetLoad
  /-- In `Wait`: top of the loop, about to `LoadUint32(&e.state)` -/
  | waitCheck
  /-- In `Wait`, in `notifyChan`: about to `AddInt32(&e.readerCount, 1)` -/
  | waitAdd
  /-- In `Wait`, in `notifyChan`: about to `LoadPointer(&e.channel)` -/
  | waitLoadPtr
  /-- In `Wait`: receiving from the channel at `ch` -/
  | waitRecv (ch : Nat)
  /-- In `Wait`: about to `AddInt32(&e.readerCount, -1)` -/
  | waitDec
  /-- In `WaitTimeout`: top of the loop, about to `LoadUint32(&e.state)` -/
  | wtCheck (timeout : Int) (isTimeout : Bool)
  /-- In `WaitTimeout`, in `notifyChan`: about to `AddInt32(&e.readerCount, 1)` -/
  | wtAdd (timeout : Int)
  /-- In `WaitTimeout`, in `notifyChan`: about to `LoadPointer(&e.channel)` -/
  | wtLoadPtr (timeout : Int)
  /-- In `WaitTimeout`: in the `select` on the timer and the channel at `ch` -/
  | wtSelect (timeout : Int) (ch : Nat)
  /-- In `WaitTimeout`: about to `AddInt32(&e.readerCount, -1)` -/
  | wtDec (timeout : Int) (isTimeout : Bool)
  /-- the call has returned (`some b` for the calls that return a `bool`) -/
  | ret (result : Option Bool)
  /-- the goroutine panicked -/
  | crashed
  deriving DecidableEq, Repr

/-- Entry point of each operation. -/
def Op.start : Op → Thread
  | .Set => .setCAS
  | .Clear => .clearStore
  | .IsSet => .isSetLoad
  | .Wait => .waitCheck
  | .WaitTimeout timeout => .wtCheck timeout false

/-- One atomic step of a goroutine on memory `m`; `none` when it cannot move
(blocked on a channel, returned, or panicked). `fire` is the environment's
choice for a `select`: `true` takes the timer case, `false` the channel case
(which is enabled only once the channel is closed); it is ignored elsewhere. -/
def Thread.step (m : Mem) (fire : Bool) : Thread → Option (Mem × Thread)
  | .setCAS =>
    let (swapped, m1) := m.CompareAndSwapUint32 0 1
    some (m1, if swapped then .setLoad else .ret none)
  | .setLoad => some (m, if m.LoadInt32 > 0 then .setSwap else .ret none)
  | .setSwap =>
    let (newCh, m1) := m.makeChan
    let (oldChPtr, m2) := m1.SwapPointer newCh
    some (m2, .setClose oldChPtr)
  | .setClose oldChPtr =>
    match m.close oldChPtr with
    | some m1 => some (m1, .ret none)
    | none => some (m, .crashed)
  | .clearStore => some (m.StoreUint32 0, .ret none)
  | .isSetLoad => some (m, .ret (some (m.LoadUint32 == 1)))
  | .waitCheck => some (m, if m.LoadUint32 == 1 then .ret none else .waitAdd)
  | .waitAdd => some (m.AddInt32 1, .waitLoadPtr)
  | .waitLoadPtr => some (m, .waitRecv m.LoadPointer)
  | .waitRecv ch => if m.isClosed ch then some (m, .waitDec) else none
  | .waitDec => some (m.AddInt32 (-1), .waitCheck)
  | .wtCheck timeout isTimeout =>
    some (m, if m.LoadUint32 == 1 then .ret (some true)
             else if isTimeout then .ret (some false)
             else .wtAdd timeout)
  | .wtAdd timeout => some (m.AddInt32 1, .wtLoadPtr timeout)
  | .wtLoadPtr timeout => some (m, .wtSelect timeout m.LoadPointer)
  | .wtSelect timeout ch =>
    if fire then some (m, .wtDec timeout true)
    else if m.isClosed ch then some (m, .wtDec timeout false)
    else none
  | .wtDec timeout isTimeout => some (m.AddInt32 (-1), .wtCheck timeout isTimeout)
  | .ret _ => none
  | .crashed => none

/-- The event together with the goroutines that are calling into it. -/
structure Sys where
  mem : Mem
  threads : List Thread
  deriving DecidableEq, Repr

/-- What the scheduler may do next: start a goroutine calling `op`, or let
goroutine `tid` take its next atomic step. -/
inductive Action where
  | spawn (op : Op)
  | step (tid : Nat) (fire : Bool)
  deriving DecidableEq, Repr

/-- Perform one action; `none` if goroutine `tid` does not exist or cannot move. -/
def Sys.exec (s : Sys) : Action → Option Sys
  | .spawn op => some { s with threads := s.threads ++ [op.start] }
  | .step tid fire =>
    match s.threads[tid]? with
    | none => none
    | some t =>
      match t.step s.mem fire with
      | none => none
      | some (m1, t1) => some { mem := m1, threads := s.threads.set tid t1 }

/-- Perform a schedule, action by action. -/
def Sys.run (s : Sys) : List Action → Option Sys
  | [] => some s
  | a :: rest => (s.exec a).bind fun s1 => s1.run rest

/-- A fresh event and no goroutine yet. -/
def Sys.init : Sys := { mem := NewEvent, threads := [] }

/-- States reached from a fresh event by some interleaving. -/
def Reachable (s : Sys) : Prop := ∃ sched : List Action, Sys.init.run sched = some s

/-- Goroutine `tid` takes `n` consecutive steps (never choosing the timer). -/
def runThread (tid : Nat) (n : Nat) : List Action := List.replicate n (.step tid false)

/-- Goroutines that have added themselves to `readerCount` and not yet
subtracted themselves. -/
def Thread.registered : Thread → Bool
  | .waitLoadPtr | .waitRecv _ | .waitDec => true
  | .wtLoadPtr _ | .wtSelect _ _ | .wtDec _ _ => true
  | _ => false

/-- One step of a goroutine that runs alone. Time passes while it is blocked,
so a `select` whose channel is not closed ends by its timer; when both cases
are ready `timerFirst` decides. `none`: it will never move (it has returned,
panicked, or receives from a channel that is not closed). -/
def stepAlone (timerFirst : Bool) (m : Mem) (t : Thread) : Option (Mem × Thread) :=
  match t.step m timerFirst with
  | some r => some r
  | none => t.step m true

/-- At most `n` steps of a goroutine that runs alone. -/
def runAlone (timerFirst : Bool) : Nat → Mem → Thread → Mem × Thread
  | 0, m, t => (m, t)
  | n + 1, m, t =>
    match stepAlone timerFirst m t with
    | some (m1, t1) => runAlone timerFirst n m1 t1
    | none => (m, t)

/-- Representation invariant of the event's memory: the flag is 0 or 1, the
counter is an `int32`, and the current channel exists and is not closed. -/
def Mem.WF (m : Mem) : Prop :=
  m.state ≤ 1 ∧ -2147483648 ≤ m.readerCount ∧ m.readerCount < 2147483648 ∧
    m.closed[m.channel]? = some false

instance (m : Mem) : Decidable m.WF := by unfold Mem.WF; infer_instance

/-- Whether action `a`, taken in state `s`, is a `Set` call performing the
false-to-true transition (its compare-and-swap succeeds). -/
def Sys.isTransition (s : Sys) : Action → Bool
  | .step tid _ => s.threads[tid]? == some Thread.setCAS && s.mem.state == 0
  | .spawn _ => false

/-- Whether action `a`, taken in state `s`, is the store of a `Clear` call. -/
def Sys.isClear (s : Sys) : Action → Bool
  | .step tid _ => s.threads[tid]? == some Thread.clearStore
  | .spawn _ => false

/-- Number of false-to-true transitions performed along a schedule. -/
def Sys.transitions (s : Sys) : List Action → Nat
  | [] => 0
  | a :: rest =>
    match s.exec a with
    | none => 0
    | some s1 => (if s.isTransition a then 1 else 0) + s1.transitions rest

/-- Whether some `Clear` stores along a schedule. -/
def Sys.clears (s : Sys) : List Action → Bool
  | [] => false
  | a :: rest =>
    match s.exec a with
    | none => false
    | some s1 => s.isClear a || s1.clears rest

/-- Number of goroutines currently registered in `readerCount`. -/
def Sys.registeredCount (s : Sys) : Nat := s.threads.countP Thread.registered

/-- Invariant of the interleaved system: the memory is well formed, no
goroutine has panicked, the channels that broadcasts are about to close are
pairwise different, not closed and not the current channel, and `readerCount`
is the number of registered goroutines (modulo the `int32` wrap-around). -/
structure Inv (s : Sys) : Prop where
  state_le : s.mem.state ≤ 1
  cur_open : s.mem.closed[s.mem.channel]? = some false
  pend_open : ∀ (i a : Nat), s.threads[i]? = some (Thread.setClose a) →
    s.mem.closed[a]? = some false ∧ a ≠ s.mem.channel
  pend_distinct : ∀ (i j a : Nat), s.threads[i]? = some (Thread.setClose a) →
    s.threads[j]? = some (Thread.setClose a) → i = j
  no_crash : ∀ i : Nat, s.threads[i]? ≠ some Thread.crashed
  count : s.mem.readerCount = wrap32 s.registeredCount

/-- Control points of `WaitTimeout`. -/
def Thread.inWaitTimeout : Thread → Bool
  | .wtCheck _ _ | .wtAdd _ | .wtLoadPtr _ | .wtSelect _ _ | .wtDec _ _ => true
  | _ => false

/-- Example schedule: a `Wait` registers and captures the channel, then a `Set`
swaps the flag, reads the counter and exchanges the channel. -/
def schedBroadcasting : List Action :=
  [.spawn .Wait, .step 0 false, .step 0 false, .step 0 false,
   .spawn .Set, .step 1 false, .step 1 false, .step 1 false]

/-- Example state: the state `schedBroadcasting` leads to, in which the `Set` is
about to close channel 0 and the `Wait` is blocked on it. -/
def sysBroadcasting : Sys :=
  { mem := { state := 1, readerCount := 1, channel := 1, closed := [false, false] },
    threads := [.waitRecv 0, .setClose 0] }

/-- Schedule of one `Set` call made by a new goroutine, which gets index `tid`,
and run to its end without interruption. -/
def setCall (tid : Nat) : List Action := .spawn .Set :: runThread tid 4

/-- Schedule in which each goroutine of `ws` in turn takes three steps: for a
blocked `Wait`, the receive, the decrement and the check of the flag. -/
def wakeAll : List Nat → List Action
  | [] => []
  | i :: rest => runThread i 3 ++ wakeAll rest

/-- Example schedule `Set(); Clear(); Wait()` on a fresh event, the `Wait`
advanced until it blocks. -/
def schedSetClearWait : List Action :=
  [.spawn .Set, .step 0 false, .step 0 false,
   .spawn .Clear, .step 1 false,
   .spawn .Wait, .step 2 false, .step 2 false, .step 2 false]

/-- Example state: the state `schedSetClearWait` leads to. -/
def sysSetClearWait : Sys :=
  { mem := { state := 0, readerCount := 1, channel := 0, closed := [false] },
    threads := [.ret none, .ret none, .waitRecv 0] }

/-- Schedule of one `Wait` and one `Set` on a fresh event in which the waiter
increments `readerCount` before the `Set` reads it, but loads the channel only
after the `Set` has exchanged it. -/
def schedLostWakeup : List Action :=
  [.spawn .Wait, .spawn .Set,
   .step 0 false,  -- Wait: reads the flag, 0
   .step 0 false,  -- Wait, notifyChan: readerCount becomes 1
   .step 1 false,  -- Set: swaps the flag from 0 to 1
   .step 1 false,  -- Set: reads readerCount, 1
   .step 1 false,  -- Set, broadcast: installs channel 1, gets back channel 0
   .step 0 false,  -- Wait, notifyChan: loads the channel, now channel 1
   .step 1 false]  -- Set, broadcast: closes channel 0

/-- The state `schedLostWakeup` leads to: the flag is set, `Set` has returned
and the waiter receives from channel 1, which nobody will close. -/
def sysLostWakeup : Sys :=
  { mem := { state := 1, readerCount := 1, channel := 1, closed := [true, false] },
    threads := [.waitRecv 1, .ret none] }

/-- Example schedule: a `Wait` blocks, a `Set` broadcasts, the `Wait` wakes up
and returns. -/
def schedWaitSetWake : List Action :=
  [.spawn .Wait, .step 0 false, .step 0 false, .step 0 false] ++ setCall 1 ++ wakeAll [0]

/-! ## The containers `Set` and `Map` (src/set.go, src/map.go)

Every method takes the container's lock for its whole body, so a method is one
atomic function of the container. A Go map is modelled by the list of its
entries in the runtime's internal order; `m[k] = v` overwrites the entry whose
key is `==` to `k` if there is one and adds an entry otherwise.

The keys of a Go map are compared with the operator `==` of their type, which
is symmetric and transitive but need not hold between a value and itself: a
`float64` NaN is not `==` to anything. `GoKey` is that operator; `Float64` is
the type `float64` as far as `==` goes. -/

/-- The operator `==` of a comparable Go type. -/
class GoKey (K : Type) where
  eq : K → K → Bool
  symm : ∀ a b : K, eq a b = true → eq b a = true
  trans : ∀ a b c : K, eq a b = true → eq b c = true → eq a c = true

/-- The operator `==` of a type on which it is plain equality. -/
def GoKey.ofDecidableEq (K : Type) [DecidableEq K] : GoKey K where
  eq a b := decide (a = b)
  symm a b h := by simp only [decide_eq_true_eq] at h ⊢; exact h.symm
  trans a b c h1 h2 := by simp only [decide_eq_true_eq] at h1 h2 ⊢; exact h1.trans h2

instance : GoKey Nat := GoKey.ofDecidableEq Nat

instance : GoKey Int := GoKey.ofDecidableEq Int

instance : GoKey String := GoKey.ofDecidableEq String

/-- A `float64`, given by the 64 bits of its IEEE 754 representation: sign,
11 bits of exponent, 52 bits of mantissa. -/
structure Float64 where
  bits : Nat
  deriving DecidableEq, Repr

/-- A NaN: the exponent is all ones and the mantissa is not zero. -/
def Float64.isNaN (x : Float64) : Bool :=
  (x.bits / 4503599627370496) % 2048 == 2047 && x.bits % 4503599627370496 != 0

/-- Plus or minus zero: every bit but the sign is zero. -/
def Float64.isZero (x : Float64) : Bool := x.bits % 9223372036854775808 == 0

/-- The operator `==` of `float64`: false as soon as one side is a NaN, and
true between the two zeros. -/
def Float64.eq (x y : Float64) : Bool :=
  !x.isNaN && !y.isNaN && (x.bits == y.bits || (x.isZero && y.isZero))

/-- The value of `math.NaN()`. -/
def Float64.NaN : Float64 := { bits := 0x7FF8000000000001 }

/-- The value 1.0. -/
def Float64.one : Float64 := { bits := 0x3FF0000000000000 }

instance : GoKey Float64 where
  eq := Float64.eq
  symm a b h := by
    simp only [Float64.eq, Bool.and_eq_true, Bool.or_eq_true, Bool.not_eq_true', beq_iff_eq] at h ⊢
    obtain ⟨⟨h1, h2⟩, h3⟩ := h
    exact ⟨⟨h2, h1⟩, h3.imp Eq.symm And.symm⟩
  trans a b c h h' := by
    simp only [Float64.eq, Float64.isZero, Bool.and_eq_true, Bool.or_eq_true, Bool.not_eq_true',
      beq_iff_eq] at h h' ⊢
    obtain ⟨⟨h1, -⟩, h3⟩ := h
    obtain ⟨⟨-, h5⟩, h6⟩ := h'
    refine ⟨⟨h1, h5⟩, ?_⟩
    rcases h3 with h3 | h3 <;> rcases h6 with h6 | h6
    · exact Or.inl (h3.trans h6)
    · exact Or.inr ⟨by rw [h3]; exact h6.1, h6.2⟩
    · exact Or.inr ⟨h3.1, by rw [← h6]; exact h3.2⟩
    · exact Or.inr ⟨h3.1, h6.2⟩

/-- The entries of a Go `map[K]V`. -/
structure GoMap (K V : Type) where
  entries : List (K × V)
  deriving DecidableEq, Repr

/-- The expression `v, ok := m[k]` on the entries: `none` when `ok` is false. -/
def lookupEntry {K V : Type} [GoKey K] (k : K) : List (K × V) → Option V
  | [] => none
  | (k1, v1) :: rest => if GoKey.eq k1 k then some v1 else lookupEntry k rest

/-- The statement `m[k] = v` on the entries. -/
def assignEntry {K V : Type} [GoKey K] (k : K) (v : V) : List (K × V) → List (K × V)
  | [] => [(k, v)]
  | (k1, v1) :: rest =>
    if GoKey.eq k1 k then (k, v) :: rest else (k1, v1) :: assignEntry k v rest

/-- The call `make(map[K]V, n)`: an empty map (the size hint has no meaning). -/
def GoMap.make {K V : Type} : GoMap K V := { entries := [] }

/-- The expression `v, ok := m[k]`. -/
def GoMap.get {K V : Type} [GoKey K] (m : GoMap K V) (k : K) : Option V :=
  lookupEntry k m.entries

/-- The statement `m[k] = v`. -/
def GoMap.set {K V : Type} [GoKey K] (m : GoMap K V) (k : K) (v : V) : GoMap K V :=
  { entries := assignEntry k v m.entries }

/-- The expression `len(m)`. -/
def GoMap.len {K V : Type} (m : GoMap K V) : Nat := m.entries.length

/-- The keys a `for key := range m` visits. Go does not specify the order: the
runtime's choice is the parameter `order`, which rearranges the entries. -/
def GoMap.rangeKeys {K V : Type} (order : List (K × V) → List (K × V)) (m : GoMap K V) :
    List K :=
  (order m.entries).map Prod.fst

/-- No two entries of a map have keys that are `==`. -/
def GoMap.WF {K V : Type} [GoKey K] (m : GoMap K V) : Prop :=
  (m.entries.map Prod.fst).Pairwise (fun a b => GoKey.eq a b = false)

instance {K V : Type} [GoKey K] (m : GoMap K V) : Decidable m.WF := by
  unfold GoMap.WF; infer_instance

/-- The type `Set[T]`: the field `m` of type `map[T]null`. -/
structure Set (T : Type) where
  m : GoMap T Unit
  deriving DecidableEq, Repr

/-- Function `NewSet`. -/
def NewSet {T : Type} : Set T := { m := GoMap.make }

/-- Method `Set.Add`: the returned flag and the set afterwards. -/
def Set.Add {T : Type} [GoKey T] (s : Set T) (key : T) : Bool × Set T :=
  let prevLen := s.m.len
  let m1 := s.m.set key ()
  let cLen := m1.len
  (prevLen != cLen, { m := m1 })

/-- Method `Set.Has`. -/
def Set.Has {T : Type} [GoKey T] (s : Set T) (key : T) : Bool :=
  (s.m.get key).isSome

/-- Method `Set.Len`. -/
def Set.Len {T : Type} (s : Set T) : Nat := s.m.len

/-- Method `Set.Keys`: the loop appends every visited key to `keys`. -/
def Set.Keys {T : Type} (order : List (T × Unit) → List (T × Unit)) (s : Set T) : List T :=
  (s.m.rangeKeys order).foldl (fun keys key => keys ++ [key]) []

/-- The type `Map[K, T]`: the field `m` of type `map[K]T`. -/
structure Map (K T : Type) where
  m : GoMap K T
  deriving DecidableEq, Repr

/-- Function `NewMap`. -/
def NewMap {K T : Type} : Map K T := { m := GoMap.make }

/-- Method `Map.Get`: `none` when `ok` is false. -/
def Map.Get {K T : Type} [GoKey K] (s : Map K T) (key : K) : Option T := s.m.get key

/-- Method `Map.Set`. -/
def Map.Set {K T : Type} [GoKey K] (s : Map K T) (key : K) (value : T) : Map K T :=
  { m := s.m.set key value }

/-- Method `Map.GetOrSet`: the results `(actual, loaded)` and the map afterwards. -/
def Map.GetOrSet {K T : Type} [GoKey K] (s : Map K T) (key : K) (value : T) :
    (T × Bool) × Map K T :=
  match s.m.get key with
  | some val => ((val, false), s)
  | none => ((value, true), { m := s.m.set key value })

/-- The set `{NaN}` of the type `Set[float64]`: a fresh set after `Add(NaN)`. -/
def setNaN : Set Float64 := (NewSet.Add Float64.NaN).2

/-- The set of the type `Set[float64]` after `Add(NaN)` twice. -/
def setNaNNaN : Set Float64 := (setNaN.Add Float64.NaN).2

/-! ## The timer helpers `NewThrottle` and `NewDebouncer` (src/control/control.go)

The clock is an explicit input: an instant is the number of nanoseconds since
the zero `time.Time` and every call is made at a given instant. The functions
handed to the helpers are identified by numbers, and running one is recorded
in a log together with the instant at which it runs. Both closures hold their
mutex for the whole call, so a call is one atomic function of the closure's
variables. -/

/-- Largest `time.Duration`, an `int64` count of nanoseconds. -/
def maxDuration : Int := 9223372036854775807

/-- Smallest `time.Duration`. -/
def minDuration : Int := -9223372036854775808

/-- Method `Time.Sub` of the standard library: the difference of two instants,
saturated to the range of `time.Duration`. -/
def timeSub (t u : Int) : Int :=
  if t - u > maxDuration then maxDuration
  else if t - u < minDuration then minDuration
  else t - u

/-- Variables of the closure `NewThrottle` returns (`interval`, `lastRun`), and
the log of the functions it has run. -/
structure Throttle where
  interval : Int
  lastRun : Int
  ran : List (Nat × Int)
  deriving DecidableEq, Repr

/-- Function `NewThrottle`: `lastRun` starts as the zero `time.Time`. -/
def NewThrottle (interval : Int) : Throttle := { interval := interval, lastRun := 0, ran := [] }

/-- The throttled function called with `f` while `time.Now()` is `now`: the
returned flag and the closure afterwards. -/
def Throttle.call (th : Throttle) (now : Int) (f : Nat) : Bool × Throttle :=
  if timeSub now th.lastRun ≥ th.interval then
    (true, { th with lastRun := now, ran := th.ran ++ [(f, now)] })
  else
    (false, th)

/-- A sequence of calls `(now, f)` of the throttled function. -/
def Throttle.calls (th : Throttle) : List (Int × Nat) → Throttle
  | [] => th
  | (now, f) :: rest => (th.call now f).2.calls rest

/-- What has become of a timer. -/
inductive TimerStatus where
  | pending
  | fired
  | stopped
  deriving DecidableEq, Repr

/-- A `time.Timer`: when it expires, the function it runs then, its status, and
its channel `C` (the values waiting in it), which is nil for the timers
`time.AfterFunc` makes. -/
structure Timer where
  deadline : Int
  f : Nat
  status : TimerStatus
  C : Option (List Int)
  deriving DecidableEq, Repr

/-- Variables of the closure `NewDebouncer` returns (`after`, `timer`), the
timers of the runtime (`timer` points into them), and the log of the functions
the timers have run. -/
structure Debouncer where
  after : Int
  timer : Option Nat
  timers : List Timer
  ran : List (Nat × Int)
  deriving DecidableEq, Repr

/-- Function `NewDebouncer`: `timer` starts nil. -/
def NewDebouncer (after : Int) : Debouncer :=
  { after := after, timer := none, timers := [], ran := [] }

/-- A pending timer whose deadline has come. -/
def Timer.due (now : Int) (t : Timer) : Bool :=
  decide (t.status = .pending) && decide (t.deadline ≤ now)

/-- The runtime when the clock reaches `now`: every pending timer whose deadline
has come expires and runs its function. -/
def Debouncer.elapse (d : Debouncer) (now : Int) : Debouncer :=
  { d with
    timers := d.timers.map fun t => if t.due now then { t with status := .fired } else t
    ran := d.ran ++ (d.timers.filter (Timer.due now)).map fun t => (t.f, t.deadline) }

/-- How long after its creation a timer made with duration `d` expires: a
duration that is not positive means at once. -/
def timerDelay (d : Int) : Int := if d ≤ 0 then 0 else d

/-- The call `time.AfterFunc(after, f)` made at `now`: a new pending timer with
a nil channel, which expires `after` later, or at once if `after` is not
positive; returns the pointer to it. -/
def Debouncer.AfterFunc (d : Debouncer) (now : Int) (f : Nat) : Nat × Debouncer :=
  (d.timers.length,
    { d with timers := d.timers ++
        [{ deadline := now + timerDelay d.after, f := f, status := .pending, C := none }] })

/-- The call `timer.Stop()`: true if it stops a pending timer, false if the
timer has already expired or been stopped. -/
def Debouncer.Stop (d : Debouncer) (p : Nat) : Bool × Debouncer :=
  match d.timers[p]? with
  | some t =>
    if t.status = .pending then
      (true, { d with timers := d.timers.set p { t with status := .stopped } })
    else (false, d)
  | none => (false, d)

/-- The receive `<-timer.C`: `none` when it blocks for ever, which a receive
from a nil channel does, as does one from an empty channel nobody sends on. -/
def Debouncer.recvC (d : Debouncer) (p : Nat) : Option Debouncer :=
  match d.timers[p]? with
  | some t =>
    match t.C with
    | some (_ :: rest) => some { d with timers := d.timers.set p { t with C := some rest } }
    | _ => none
  | none => none

/-- The debounced function called with `f` at `now`, in the state the runtime
is in; `none` when the call blocks for ever. -/
def Debouncer.call (d : Debouncer) (now : Int) (f : Nat) : Option Debouncer :=
  let drained : Option Debouncer :=
    match d.timer with
    | some p =>
      let (stopped, d1) := d.Stop p
      if !stopped then d1.recvC p else some d1
    | none => some d
  drained.map fun d2 =>
    let (p1, d3) := d2.AfterFunc now f
    { d3 with timer := some p1 }

/-- The debounced function called with `f` once the clock has reached `now`. -/
def Debouncer.callAt (d : Debouncer) (now : Int) (f : Nat) : Option Debouncer :=
  (d.elapse now).call now f

/-- A sequence of calls `(now, f)` of the debounced function. -/
def Debouncer.callsAt (d : Debouncer) : List (Int × Nat) → Option Debouncer
  | [] => some d
  | (now, f) :: rest => (d.callAt now f).bind fun d1 => d1.callsAt rest

/-- Between two bursts: `timer` points to a pending `AfterFunc` timer that
will run `f` at `deadline`, every other timer has been stopped, and nothing
has run yet. -/
def Debouncer.Armed (d : Debouncer) (deadline : Int) (f : Nat) : Prop :=
  ∃ old : List Timer, (∀ t ∈ old, t.status = .stopped) ∧
    d.timers = old ++ [{ deadline := deadline, f := f, status := .pending, C := none }] ∧
    d.timer = some old.length ∧ d.ran = []

/-- Invariant of the throttle: every logged run is at or before `lastRun`, any
two logged runs are at least `interval` apart, and `lastRun` is the instant of
the latest logged run if there is one, the zero `time.Time` otherwise. -/
def Throttle.Inv (th : Throttle) : Prop :=
  (∀ e ∈ th.ran, e.2 ≤ th.lastRun) ∧
    th.ran.Pairwise (fun a b => b.2 - a.2 ≥ th.interval) ∧
    ((th.ran = [] ∧ th.lastRun = 0) ∨ ∃ g : Nat, th.ran.getLast? = some (g, th.lastRun))

/-- The last call of the non-empty sequence `c :: cs`. -/
def lastCall (c : Int × Nat) : List (Int × Nat) → Int × Nat
  | [] => c
  | x :: rest => lastCall x rest

/-- Example state: a debouncer with `after` 10 after one call at 0 with
function 1. -/
def debouncerArmed : Debouncer :=
  { after := 10, timer := some 0, ran := [],
    timers := [{ deadline := 10, f := 1, status := .pending, C := none }] }

/-- Example state: `debouncerArmed` once its timer has fired. -/
def debouncerFired : Debouncer :=
  { after := 10, timer := some 0, ran := [(1, 10)],
    timers := [{ deadline := 10, f := 1, status := .fired, C := none }] }

/-! ## Basic facts about the operations run alone -/

theorem wrap32_id {x : Int} (h1 : -2147483648 ≤ x) (h2 : x < 2147483648) : wrap32 x = x := by
  unfold wrap32; omega

theorem wrap32_add_wrap32 (x d : Int) : wrap32 (wrap32 x + d) = wrap32 (x + d) := by
  unfold wrap32; omega

theorem wrap32_range (x : Int) : -2147483648 ≤ wrap32 x ∧ wrap32 x < 2147483648 := by
  unfold wrap32; omega

theorem broadcast_of_open {m : Mem} (h : m.closed[m.channel]? = some false) :
    Event.broadcast m = some { m with channel := m.closed.length,
                                      closed := (m.closed ++ [false]).set m.channel true } := by
  have hlt : m.channel < m.closed.length := by
    by_contra hc
    rw [List.getElem?_eq_none (by omega)] at h
    exact absurd h (by simp)
  simp [Event.broadcast, Mem.makeChan, Mem.SwapPointer, Mem.close,
    List.getElem?_append_left hlt, h]

theorem Set_eq (m : Mem) :
    Event.Set m =
      if m.state = 0 then
        (if m.readerCount > 0 then Event.broadcast { m with state := 1 }
         else some { m with state := 1 })
      else some m := by
  unfold Event.Set Mem.CompareAndSwapUint32 Mem.LoadInt32
  by_cases h : m.state = 0 <;> by_cases h2 : m.readerCount > 0 <;> simp [h, h2]

/-- C10. `NewEvent` returns an event in the initial state: `IsSet` is false, the
waiter count is 0, and the current gate is a fresh (the only allocated) channel
that has not been closed. -/
theorem NewEvent_initial :
    Event.IsSet NewEvent = false ∧ NewEvent.state = 0 ∧ NewEvent.readerCount = 0 ∧
      NewEvent.closed = [false] ∧ NewEvent.channel = 0 ∧
      NewEvent.isClosed NewEvent.channel = false ∧ NewEvent.WF := by
  decide

/-- C6. `Clear` only clears the flag: afterwards `IsSet` is false, the waiter
count, the gate reference and every channel are what they were, and on an
event whose flag is already 0 it changes nothing. -/
theorem Clear_only_clears_flag (m : Mem) :
    Event.IsSet (Event.Clear m) = false ∧
      (Event.Clear m).readerCount = m.readerCount ∧
      (Event.Clear m).channel = m.channel ∧
      (Event.Clear m).closed = m.closed ∧
      Event.Clear m = { m with state := 0 } ∧
      (m.state ≤ 1 → Event.IsSet m = false → Event.Clear m = m) := by
  refine ⟨rfl, rfl, rfl, rfl, rfl, ?_⟩
  intro h1 h
  cases m
  simp only [Event.IsSet, Mem.LoadUint32, beq_eq_false_iff_ne] at h
  simp only [Event.Clear, Mem.StoreUint32, Mem.mk.injEq, and_true, true_and]
  simp only at h1
  omega

/-- Witness for C6: clearing a fresh event is a no-op. -/
theorem Clear_only_clears_flag_witness :
    NewEvent.state ≤ 1 ∧ Event.IsSet NewEvent = false ∧ Event.Clear NewEvent = NewEvent :=
  ⟨by decide, by decide, (Clear_only_clears_flag NewEvent).2.2.2.2.2 (by decide) (by decide)⟩

/-- C3. On a well-formed event `Set` returns, and it installs a new unclosed
channel and closes the previous one if and only if the flag was false before
the call and the waiter count was greater than 0; otherwise the channel
reference and every channel are left as they were. -/
theorem Set_broadcasts_iff (m : Mem) (h : m.WF) :
    ∃ m1, Event.Set m = some m1 ∧
      ((m1.channel = m.closed.length ∧ m1.isClosed m1.channel = false ∧
          m1.closed = (m.closed ++ [false]).set m.channel true ∧
          m1.isClosed m.channel = true) ↔
        (Event.IsSet m = false ∧ m.readerCount > 0)) ∧
      (¬ (Event.IsSet m = false ∧ m.readerCount > 0) →
        m1.channel = m.channel ∧ m1.closed = m.closed) := by
  obtain ⟨hs, -, -, hc⟩ := h
  have hlt : m.channel < m.closed.length := by
    by_contra hcon
    rw [List.getElem?_eq_none (by omega)] at hc
    exact absurd hc (by simp)
  have hflag : Event.IsSet m = false ↔ m.state = 0 := by
    simp only [Event.IsSet, Mem.LoadUint32, beq_eq_false_iff_ne]; omega
  rw [Set_eq]
  by_cases h0 : m.state = 0
  · by_cases hr : m.readerCount > 0
    · rw [if_pos h0, if_pos hr, broadcast_of_open (m := { m with state := 1 }) hc]
      refine ⟨_, rfl, ⟨fun _ => ⟨hflag.2 h0, hr⟩, fun _ => ⟨rfl, ?_, rfl, ?_⟩⟩, ?_⟩
      · simp [Mem.isClosed, List.getD_eq_getElem?_getD, List.getElem?_set, hlt.ne,
          List.getElem?_append_right]
      · have hlt2 : m.channel < (m.closed.set m.channel true).length := by simpa using hlt
        simp [Mem.isClosed, List.getD_eq_getElem?_getD, List.getElem?_append_left hlt2,
          List.getElem?_set, hlt]
      · intro hn; exact absurd ⟨hflag.2 h0, hr⟩ hn
    · rw [if_pos h0, if_neg hr]
      refine ⟨_, rfl, ⟨fun hl => ?_, fun hrr => absurd hrr.2 hr⟩, fun _ => ⟨rfl, rfl⟩⟩
      have := hl.1
      simp only at this
      omega
  · rw [if_neg h0]
    refine ⟨_, rfl, ⟨fun hl => ?_, fun hrr => absurd (hflag.1 hrr.1) h0⟩, fun _ => ⟨rfl, rfl⟩⟩
    have := hl.1
    omega

/-- Witness for C3: a fresh event with one registered waiter. -/
theorem Set_broadcasts_iff_witness :
    (NewEvent.AddInt32 1).WF ∧
      Event.Set (NewEvent.AddInt32 1) =
        some { state := 1, readerCount := 1, channel := 1, closed := [true, false] } ∧
      ∃ m1, Event.Set (NewEvent.AddInt32 1) = some m1 ∧
        ((m1.channel = (NewEvent.AddInt32 1).closed.length ∧ m1.isClosed m1.channel = false ∧
            m1.closed = ((NewEvent.AddInt32 1).closed ++ [false]).set
              (NewEvent.AddInt32 1).channel true ∧
            m1.isClosed (NewEvent.AddInt32 1).channel = true) ↔
          (Event.IsSet (NewEvent.AddInt32 1) = false ∧ (NewEvent.AddInt32 1).readerCount > 0)) ∧
        (¬ (Event.IsSet (NewEvent.AddInt32 1) = false ∧ (NewEvent.AddInt32 1).readerCount > 0) →
          m1.channel = (NewEvent.AddInt32 1).channel ∧
            m1.closed = (NewEvent.AddInt32 1).closed) :=
  ⟨by decide, by decide, Set_broadcasts_iff (NewEvent.AddInt32 1) (by decide)⟩

/-- Only the compare-and-swap of `Set` and the store of `Clear` write the flag. -/
theorem step_state {m m1 : Mem} {t t1 : Thread} {fire : Bool}
    (h : t.step m fire = some (m1, t1)) (hc : t ≠ .clearStore) :
    (m1.state = m.state ∧ ¬ (t = .setCAS ∧ m.state = 0)) ∨
      (t = .setCAS ∧ m.state = 0 ∧ m1.state = 1) := by
  cases t <;> simp only [Thread.step, Option.some.injEq, Prod.mk.injEq, ne_eq,
    not_true_eq_false, reduceCtorEq] at h hc
  case setCAS =>
    unfold Mem.CompareAndSwapUint32 at h
    by_cases h0 : m.state = 0
    · simp only [h0, if_true] at h
      right; exact ⟨rfl, h0, by rw [← h.1]⟩
    · simp only [h0, if_false] at h
      left; exact ⟨by rw [← h.1], fun hh => h0 hh.2⟩
  case setClose a =>
    left
    cases hcl : m.close a with
    | none => rw [hcl] at h; simp only [Option.some.injEq, Prod.mk.injEq] at h; simp [← h.1]
    | some m2 =>
      rw [hcl] at h
      simp only [Option.some.injEq, Prod.mk.injEq] at h
      unfold Mem.close at hcl
      split at hcl
      · simp only [Option.some.injEq] at hcl
        rw [← h.1, ← hcl]; simp
      · simp at hcl
  case waitRecv ch =>
    split at h
    · simp only [Option.some.injEq, Prod.mk.injEq] at h; left; simp [← h.1]
    · simp at h
  case wtSelect d ch =>
    split at h
    · simp only [Option.some.injEq, Prod.mk.injEq] at h; left; simp [← h.1]
    · split at h
      · simp only [Option.some.injEq, Prod.mk.injEq] at h; left; simp [← h.1]
      · simp at h
  all_goals
    left; obtain ⟨h1, -⟩ := h; subst h1
    simp [Mem.AddInt32, Mem.makeChan, Mem.SwapPointer]

/-- Inversion of an executed step. -/
theorem exec_step_inv {s s1 : Sys} {tid : Nat} {fire : Bool}
    (h : s.exec (.step tid fire) = some s1) :
    ∃ t m1 t1, s.threads[tid]? = some t ∧ t.step s.mem fire = some (m1, t1) ∧
      s1 = { mem := m1, threads := s.threads.set tid t1 } := by
  simp only [Sys.exec] at h
  cases ht : s.threads[tid]? with
  | none => rw [ht] at h; simp at h
  | some t =>
    rw [ht] at h
    simp only at h
    cases hst : t.step s.mem fire with
    | none => rw [hst] at h; simp at h
    | some r =>
      obtain ⟨m1, t1⟩ := r
      rw [hst] at h
      simp only [Option.some.injEq] at h
      exact ⟨t, m1, t1, rfl, hst, h.symm⟩

/-- How an executed action rewrites the flag. -/
theorem exec_state {s s1 : Sys} {a : Action} (h : s.exec a = some s1)
    (hc : s.isClear a = false) :
    (s.isTransition a = false ∧ s1.mem.state = s.mem.state) ∨
      (s.isTransition a = true ∧ s.mem.state = 0 ∧ s1.mem.state = 1) := by
  cases a with
  | spawn op =>
    simp only [Sys.exec, Option.some.injEq] at h
    left; subst h; simp [Sys.isTransition]
  | step tid fire =>
    obtain ⟨t, m1, t1, ht, hst, rfl⟩ := exec_step_inv h
    have hne : t ≠ .clearStore := by
      intro he; subst he
      simp [Sys.isClear, ht] at hc
    rcases step_state hst hne with ⟨h1, h2⟩ | ⟨h1, h2, h3⟩
    · left
      refine ⟨?_, h1⟩
      simp only [Sys.isTransition, ht, Bool.and_eq_false_imp, beq_iff_eq, Option.some.injEq,
        beq_eq_false_iff_ne]
      intro he hz; exact h2 ⟨he, hz⟩
    · right
      exact ⟨by simp [Sys.isTransition, ht, h1, h2], h2, h3⟩

/-- Once the flag is not 0, no `Set` performs the transition until a `Clear`. -/
theorem transitions_of_set (sched : List Action) :
    ∀ s : Sys, s.mem.state ≠ 0 → s.clears sched = false → s.transitions sched = 0 := by
  induction sched with
  | nil => intro s _ _; rfl
  | cons a rest ih =>
    intro s hs hc
    simp only [Sys.transitions, Sys.clears] at hc ⊢
    cases he : s.exec a with
    | none => rfl
    | some s1 =>
      rw [he] at hc
      simp only [Bool.or_eq_false_iff] at hc ⊢
      rcases exec_state he hc.1 with ⟨h1, h2⟩ | ⟨-, h2, -⟩
      · rw [h1, ih s1 (by rw [h2]; exact hs) hc.2]; rfl
      · exact absurd h2 hs

/-- C4. `Set` is idempotent: on a well-formed event `Set` returns and `IsSet`
is true afterwards; `Set` on a signaled event changes nothing; a second `Set`
right after the first changes nothing; and along any interleaving of any
goroutines in which no `Clear` stores, at most one `Set` performs the
false-to-true transition. -/
theorem Set_idempotent :
    (∀ m : Mem, m.WF → ∃ m1, Event.Set m = some m1 ∧ Event.IsSet m1 = true ∧
        Event.Set m1 = some m1 ∧ (Event.Set m).bind Event.Set = Event.Set m) ∧
      (∀ m : Mem, Event.IsSet m = true → Event.Set m = some m) ∧
      (∀ (s : Sys) (sched : List Action), s.clears sched = false → s.transitions sched ≤ 1) := by
  have hsig : ∀ m : Mem, Event.IsSet m = true → Event.Set m = some m := by
    intro m h
    simp only [Event.IsSet, Mem.LoadUint32, beq_iff_eq] at h
    rw [Set_eq, if_neg (by omega)]
  refine ⟨?_, hsig, ?_⟩
  · intro m h
    obtain ⟨hs, -, -, hc⟩ := h
    have key : ∃ m1, Event.Set m = some m1 ∧ Event.IsSet m1 = true := by
      rw [Set_eq]
      by_cases h0 : m.state = 0
      · by_cases hr : m.readerCount > 0
        · rw [if_pos h0, if_pos hr, broadcast_of_open (m := { m with state := 1 }) hc]
          exact ⟨_, rfl, rfl⟩
        · rw [if_pos h0, if_neg hr]; exact ⟨_, rfl, rfl⟩
      · rw [if_neg h0]
        exact ⟨_, rfl, by simp only [Event.IsSet, Mem.LoadUint32, beq_iff_eq]; omega⟩
    obtain ⟨m1, h1, h2⟩ := key
    exact ⟨m1, h1, h2, hsig m1 h2, by rw [h1]; exact hsig m1 h2⟩
  · intro s sched
    induction sched generalizing s with
    | nil => intro _; simp [Sys.transitions]
    | cons a rest ih =>
      intro hc
      simp only [Sys.transitions, Sys.clears] at hc ⊢
      cases he : s.exec a with
      | none => simp
      | some s1 =>
        rw [he] at hc
        simp only [Bool.or_eq_false_iff] at hc ⊢
        rcases exec_state he hc.1 with ⟨h1, -⟩ | ⟨h1, -, h3⟩
        · rw [h1]; simpa using ih s1 hc.2
        · rw [h1, transitions_of_set rest s1 (by omega) hc.2]; simp

/-- Witness for C4: two `Set` calls racing on a fresh event with one registered
waiter; exactly one of them performs the transition. -/
theorem Set_idempotent_witness :
    (NewEvent.AddInt32 1).WF ∧
      Event.IsSet { state := 1, readerCount := 1, channel := 1, closed := [true, false] } = true ∧
      Sys.clears ⟨NewEvent, [.setCAS, .setCAS]⟩
        [.step 0 false, .step 1 false, .step 0 false] = false ∧
      Sys.transitions ⟨NewEvent, [.setCAS, .setCAS]⟩
        [.step 0 false, .step 1 false, .step 0 false] = 1 ∧
      (∃ m1, Event.Set (NewEvent.AddInt32 1) = some m1 ∧ Event.IsSet m1 = true ∧
        Event.Set m1 = some m1 ∧
        (Event.Set (NewEvent.AddInt32 1)).bind Event.Set = Event.Set (NewEvent.AddInt32 1)) ∧
      Event.Set { state := 1, readerCount := 1, channel := 1, closed := [true, false] } =
        some { state := 1, readerCount := 1, channel := 1, closed := [true, false] } ∧
      Sys.transitions ⟨NewEvent, [.setCAS, .setCAS]⟩
        [.step 0 false, .step 1 false, .step 0 false] ≤ 1 :=
  ⟨by decide, by decide, by decide, by decide,
    Set_idempotent.1 (NewEvent.AddInt32 1) (by decide),
    Set_idempotent.2.1 _ (by decide),
    Set_idempotent.2.2 _ _ (by decide)⟩

/-! ## The invariant of the interleaved system -/

theorem countP_set_add {α : Type} (p : α → Bool) (t1 : α) :
    ∀ (l : List α) (i : Nat) (t : α), l[i]? = some t →
      (l.set i t1).countP p + (if p t then 1 else 0) = l.countP p + (if p t1 then 1 else 0) := by
  intro l
  induction l with
  | nil => intro i t h; simp at h
  | cons x xs ih =>
    intro i t h
    cases i with
    | zero =>
      simp only [List.getElem?_cons_zero, Option.some.injEq] at h
      subst h
      simp only [List.set_cons_zero, List.countP_cons]
      omega
    | succ n =>
      simp only [List.getElem?_cons_succ] at h
      have := ih n t h
      simp only [List.set_cons_succ, List.countP_cons]
      omega

/-- What one step does to the channel reference and to the channels. -/
theorem step_chan {m m1 : Mem} {t t1 : Thread} {fire : Bool}
    (h : t.step m fire = some (m1, t1)) :
    (t = .setSwap ∧ t1 = .setClose m.channel ∧ m1.channel = m.closed.length ∧
        m1.closed = m.closed ++ [false]) ∨
      (∃ a, t = .setClose a ∧ m.closed[a]? = some false ∧ t1 = .ret none ∧
        m1.channel = m.channel ∧ m1.closed = m.closed.set a true) ∨
      (∃ a, t = .setClose a ∧ m.closed[a]? ≠ some false ∧ t1 = .crashed) ∨
      ((∀ a, t ≠ .setClose a) ∧ (∀ a, t1 ≠ .setClose a) ∧ t1 ≠ .crashed ∧
        m1.channel = m.channel ∧ m1.closed = m.closed) := by
  cases t <;> simp only [Thread.step, Option.some.injEq, Prod.mk.injEq, reduceCtorEq] at h
  case setSwap =>
    left
    obtain ⟨h1, h2⟩ := h
    subst h1; subst h2
    simp [Mem.makeChan, Mem.SwapPointer]
  case setClose a =>
    right
    cases hcl : m.close a with
    | none =>
      rw [hcl] at h
      simp only [Option.some.injEq, Prod.mk.injEq] at h
      right; left
      refine ⟨a, rfl, ?_, h.2.symm⟩
      intro hh
      simp [Mem.close, hh] at hcl
    | some m2 =>
      rw [hcl] at h
      simp only [Option.some.injEq, Prod.mk.injEq] at h
      left
      unfold Mem.close at hcl
      split at hcl
      · rename_i hh
        simp only [Option.some.injEq] at hcl
        refine ⟨a, rfl, hh, h.2.symm, ?_, ?_⟩ <;> rw [← h.1, ← hcl]
      · simp at hcl
  case setCAS =>
    right; right; right
    unfold Mem.CompareAndSwapUint32 at h
    obtain ⟨h1, h2⟩ := h
    subst h1; subst h2
    by_cases h0 : m.state = 0 <;> simp [h0]
  case setLoad =>
    right; right; right
    obtain ⟨h1, h2⟩ := h
    subst h1; subst h2
    by_cases h0 : m.LoadInt32 > 0 <;> simp [h0]
  case waitCheck =>
    right; right; right
    obtain ⟨h1, h2⟩ := h
    subst h1; subst h2
    by_cases h0 : m.LoadUint32 = 1 <;> simp [h0]
  case wtCheck d b =>
    right; right; right
    obtain ⟨h1, h2⟩ := h
    subst h1; subst h2
    by_cases h0 : m.LoadUint32 = 1 <;> cases b <;> simp [h0]
  case waitRecv ch =>
    right; right; right
    split at h
    · simp only [Option.some.injEq, Prod.mk.injEq] at h
      obtain ⟨h1, h2⟩ := h
      subst h1; subst h2; simp
    · simp at h
  case wtSelect d ch =>
    right; right; right
    split at h
    · simp only [Option.some.injEq, Prod.mk.injEq] at h
      obtain ⟨h1, h2⟩ := h
      subst h1; subst h2; simp
    · split at h
      · simp only [Option.some.injEq, Prod.mk.injEq] at h
        obtain ⟨h1, h2⟩ := h
        subst h1; subst h2; simp
      · simp at h
  all_goals
    right; right; right
    obtain ⟨h1, h2⟩ := h
    subst h1; subst h2
    simp [Mem.AddInt32, Mem.StoreUint32]

/-- What one step does to `readerCount`: it follows the registration status. -/
theorem step_count {m m1 : Mem} {t t1 : Thread} {fire : Bool}
    (h : t.step m fire = some (m1, t1)) :
    m1.readerCount = wrap32 (m.readerCount + ((if t1.registered then 1 else 0) -
      (if t.registered then 1 else 0))) ∨
    (m1.readerCount = m.readerCount ∧ t1.registered = t.registered) := by
  cases t <;> simp only [Thread.step, Option.some.injEq, Prod.mk.injEq, reduceCtorEq] at h
  case setCAS =>
    right
    unfold Mem.CompareAndSwapUint32 at h
    obtain ⟨h1, h2⟩ := h
    subst h1; subst h2
    by_cases h0 : m.state = 0 <;> simp [h0, Thread.registered]
  case setLoad =>
    right
    obtain ⟨h1, h2⟩ := h
    subst h1; subst h2
    by_cases h0 : m.LoadInt32 > 0 <;> simp [h0, Thread.registered]
  case setClose a =>
    right
    cases hcl : m.close a with
    | none =>
      rw [hcl] at h
      simp only [Option.some.injEq, Prod.mk.injEq] at h
      obtain ⟨h1, h2⟩ := h
      subst h1; subst h2; simp [Thread.registered]
    | some m2 =>
      rw [hcl] at h
      simp only [Option.some.injEq, Prod.mk.injEq] at h
      obtain ⟨h1, h2⟩ := h
      subst h1; subst h2
      unfold Mem.close at hcl
      split at hcl
      · simp only [Option.some.injEq] at hcl
        subst hcl; simp [Thread.registered]
      · simp at hcl
  case waitCheck =>
    right
    obtain ⟨h1, h2⟩ := h
    subst h1; subst h2
    by_cases h0 : m.LoadUint32 = 1 <;> simp [h0, Thread.registered]
  case wtCheck d b =>
    right
    obtain ⟨h1, h2⟩ := h
    subst h1; subst h2
    by_cases h0 : m.LoadUint32 = 1 <;> cases b <;> simp [h0, Thread.registered]
  case waitRecv ch =>
    right
    split at h
    · simp only [Option.some.injEq, Prod.mk.injEq] at h
      obtain ⟨h1, h2⟩ := h
      subst h1; subst h2; simp [Thread.registered]
    · simp at h
  case wtSelect d ch =>
    right
    split at h
    · simp only [Option.some.injEq, Prod.mk.injEq] at h
      obtain ⟨h1, h2⟩ := h
      subst h1; subst h2; simp [Thread.registered]
    · split at h
      · simp only [Option.some.injEq, Prod.mk.injEq] at h
        obtain ⟨h1, h2⟩ := h
        subst h1; subst h2; simp [Thread.registered]
      · simp at h
  case waitAdd | wtAdd | waitDec | wtDec =>
    left
    obtain ⟨h1, h2⟩ := h
    subst h1; subst h2
    simp [Mem.AddInt32, Thread.registered]
  all_goals
    right
    obtain ⟨h1, h2⟩ := h
    subst h1; subst h2
    simp [Mem.StoreUint32, Mem.makeChan, Mem.SwapPointer, Thread.registered]

theorem step_state_le {m m1 : Mem} {t t1 : Thread} {fire : Bool}
    (h : t.step m fire = some (m1, t1)) (hs : m.state ≤ 1) : m1.state ≤ 1 := by
  by_cases hc : t = .clearStore
  · subst hc
    simp only [Thread.step, Option.some.injEq, Prod.mk.injEq] at h
    rw [← h.1]; simp [Mem.StoreUint32]
  · rcases step_state h hc with ⟨h1, -⟩ | ⟨-, -, h3⟩ <;> omega

theorem getElem?_set_some {α : Type} {l : List α} {i j : Nat} {x y : α}
    (h : (l.set i x)[j]? = some y) : (j = i ∧ y = x) ∨ (j ≠ i ∧ l[j]? = some y) := by
  rw [List.getElem?_set] at h
  by_cases hij : i = j
  · subst hij
    rw [if_pos rfl] at h
    split at h
    · left; exact ⟨rfl, by simpa using h.symm⟩
    · simp at h
  · rw [if_neg hij] at h
    right; exact ⟨fun hh => hij hh.symm, h⟩

theorem getElem?_append_singleton_some {α : Type} {l : List α} {j : Nat} {x y : α}
    (h : (l ++ [x])[j]? = some y) : l[j]? = some y ∨ y = x := by
  by_cases hj : j < l.length
  · rw [List.getElem?_append_left hj] at h; exact Or.inl h
  · rw [List.getElem?_append_right (by omega)] at h
    right
    cases hk : j - l.length with
    | zero => rw [hk] at h; simpa using h.symm
    | succ k => rw [hk] at h; simp at h

theorem getElem?_lt_of_some {α : Type} {l : List α} {j : Nat} {y : α}
    (h : l[j]? = some y) : j < l.length := by
  by_contra hc
  rw [List.getElem?_eq_none (by omega)] at h
  exact absurd h (by simp)

theorem Inv_init : Inv Sys.init where
  state_le := by decide
  cur_open := by decide
  pend_open := by intro i a h; simp [Sys.init] at h
  pend_distinct := by intro i j a h; simp [Sys.init] at h
  no_crash := by intro i; simp [Sys.init]
  count := by decide

theorem Inv_spawn {s : Sys} (hI : Inv s) (op : Op) :
    Inv { s with threads := s.threads ++ [op.start] } where
  state_le := hI.state_le
  cur_open := hI.cur_open
  pend_open := by
    intro i a h
    rcases getElem?_append_singleton_some h with h1 | h1
    · exact hI.pend_open i a h1
    · cases op <;> simp [Op.start] at h1
  pend_distinct := by
    intro i j a h1 h2
    rcases getElem?_append_singleton_some h1 with h1 | h1
    · rcases getElem?_append_singleton_some h2 with h2 | h2
      · exact hI.pend_distinct i j a h1 h2
      · cases op <;> simp [Op.start] at h2
    · cases op <;> simp [Op.start] at h1
  no_crash := by
    intro i h
    rcases getElem?_append_singleton_some h with h1 | h1
    · exact hI.no_crash i h1
    · cases op <;> simp [Op.start] at h1
  count := by
    have h0 : (Op.start op).registered = false := by cases op <;> rfl
    have := hI.count
    simp only [Sys.registeredCount, List.countP_append, List.countP_cons, List.countP_nil, h0]
      at this ⊢
    simpa using this

theorem Inv_step {s : Sys} (hI : Inv s) {tid : Nat} {t t1 : Thread} {m1 : Mem} {fire : Bool}
    (ht : s.threads[tid]? = some t) (hst : t.step s.mem fire = some (m1, t1)) :
    Inv { mem := m1, threads := s.threads.set tid t1 } := by
  have hcount : m1.readerCount =
      wrap32 (Sys.registeredCount { mem := m1, threads := s.threads.set tid t1 }) := by
    have hadd := countP_set_add Thread.registered t1 s.threads tid t ht
    have hc := hI.count
    simp only [Sys.registeredCount] at hc ⊢
    rcases step_count hst with h | ⟨h, hr⟩
    · rw [h, hc, wrap32_add_wrap32]
      congr 1
      cases ha : t.registered <;> cases hb : t1.registered <;> rw [ha, hb] at hadd <;>
        simp at hadd ⊢ <;> omega
    · rw [h, hc]
      congr 2
      rw [hr] at hadd
      omega
  have hcl := hI.cur_open
  have hlt := getElem?_lt_of_some hcl
  rcases step_chan hst with ⟨h1, h2, h3, h4⟩ | ⟨a, h1, h2, h3, h4, h5⟩ | ⟨a, h1, h2, -⟩ |
    ⟨h1, h2, h3, h4, h5⟩
  · -- `setSwap`
    subst h1; subst h2
    refine ⟨step_state_le hst hI.state_le, ?_, ?_, ?_, ?_, hcount⟩
    · simp [h3, h4]
    · intro i a h
      simp only [h3, h4]
      rcases getElem?_set_some h with ⟨-, he⟩ | ⟨-, he⟩
      · simp only [Thread.setClose.injEq] at he
        subst he
        exact ⟨by rw [List.getElem?_append_left hlt]; exact hcl, by omega⟩
      · have := hI.pend_open i a he
        have hlt2 := getElem?_lt_of_some this.1
        exact ⟨by rw [List.getElem?_append_left hlt2]; exact this.1, by omega⟩
    · intro i j a hi hj
      rcases getElem?_set_some hi with ⟨hi1, hi2⟩ | ⟨hi1, hi2⟩
      · rcases getElem?_set_some hj with ⟨hj1, hj2⟩ | ⟨hj1, hj2⟩
        · omega
        · simp only [Thread.setClose.injEq] at hi2
          exact absurd hi2 (hI.pend_open j a hj2).2
      · rcases getElem?_set_some hj with ⟨hj1, hj2⟩ | ⟨hj1, hj2⟩
        · simp only [Thread.setClose.injEq] at hj2
          exact absurd hj2 (hI.pend_open i a hi2).2
        · exact hI.pend_distinct i j a hi2 hj2
    · intro i h
      rcases getElem?_set_some h with ⟨-, he⟩ | ⟨-, he⟩
      · simp at he
      · exact hI.no_crash i he
  · -- `setClose` of a channel that is not closed
    subst h1; subst h3
    have hne := (hI.pend_open tid a ht).2
    refine ⟨step_state_le hst hI.state_le, ?_, ?_, ?_, ?_, hcount⟩
    · rw [h4, h5, List.getElem?_set_ne hne]; exact hcl
    · intro i b h
      rcases getElem?_set_some h with ⟨-, he⟩ | ⟨hi, he⟩
      · simp at he
      · have hb : a ≠ b := by
          intro hab; subst hab
          exact hi (hI.pend_distinct i tid a he ht)
        rw [h4, h5, List.getElem?_set_ne hb]
        exact hI.pend_open i b he
    · intro i j b hi hj
      rcases getElem?_set_some hi with ⟨-, hi2⟩ | ⟨-, hi2⟩
      · simp at hi2
      · rcases getElem?_set_some hj with ⟨-, hj2⟩ | ⟨-, hj2⟩
        · simp at hj2
        · exact hI.pend_distinct i j b hi2 hj2
    · intro i h
      rcases getElem?_set_some h with ⟨-, he⟩ | ⟨-, he⟩
      · simp at he
      · exact hI.no_crash i he
  · -- `setClose` of a closed channel cannot happen
    subst h1
    exact absurd (hI.pend_open tid a ht).1 h2
  · -- every other step leaves the channels alone
    refine ⟨step_state_le hst hI.state_le, ?_, ?_, ?_, ?_, hcount⟩
    · rw [h4, h5]; exact hcl
    · intro i b h
      rcases getElem?_set_some h with ⟨-, he⟩ | ⟨-, he⟩
      · exact absurd he.symm (h2 b)
      · rw [h4, h5]; exact hI.pend_open i b he
    · intro i j b hi hj
      rcases getElem?_set_some hi with ⟨-, hi2⟩ | ⟨-, hi2⟩
      · exact absurd hi2.symm (h2 b)
      · rcases getElem?_set_some hj with ⟨-, hj2⟩ | ⟨-, hj2⟩
        · exact absurd hj2.symm (h2 b)
        · exact hI.pend_distinct i j b hi2 hj2
    · intro i h
      rcases getElem?_set_some h with ⟨-, he⟩ | ⟨-, he⟩
      · exact h3 he.symm
      · exact hI.no_crash i he

theorem Inv_exec {s s1 : Sys} (hI : Inv s) {a : Action} (h : s.exec a = some s1) : Inv s1 := by
  cases a with
  | spawn op =>
    simp only [Sys.exec, Option.some.injEq] at h
    subst h
    exact Inv_spawn hI op
  | step tid fire =>
    obtain ⟨t, m1, t1, ht, hst, rfl⟩ := exec_step_inv h
    exact Inv_step hI ht hst

theorem Inv_run (sched : List Action) :
    ∀ {s s1 : Sys}, Inv s → s.run sched = some s1 → Inv s1 := by
  induction sched with
  | nil =>
    intro s s1 hI h
    simp only [Sys.run, Option.some.injEq] at h
    subst h; exact hI
  | cons a rest ih =>
    intro s s1 hI h
    simp only [Sys.run] at h
    cases he : s.exec a with
    | none => rw [he] at h; simp at h
    | some s2 =>
      rw [he] at h
      exact ih (Inv_exec hI he) h

theorem Inv_of_reachable {s : Sys} (h : Reachable s) : Inv s := by
  obtain ⟨sched, hs⟩ := h
  exact Inv_run sched Inv_init hs

/-! ## The waiting calls run alone -/

theorem AddInt32_cancel {m : Mem} (h1 : -2147483648 ≤ m.readerCount)
    (h2 : m.readerCount < 2147483648) : (m.AddInt32 1).AddInt32 (-1) = m := by
  cases m
  simp only [Mem.AddInt32, Mem.mk.injEq, and_true, true_and] at h1 h2 ⊢
  unfold wrap32; omega

theorem Wait_returned (fuel : Nat) :
    ∀ {m m1 : Mem}, -2147483648 ≤ m.readerCount → m.readerCount < 2147483648 →
      Event.Wait fuel m = .returned () m1 → m1 = m ∧ Event.IsSet m = true := by
  induction fuel with
  | zero => intro m m1 _ _ h; simp [Event.Wait] at h
  | succ n ih =>
    intro m m1 h1 h2 h
    unfold Event.Wait at h
    by_cases hs : m.LoadUint32 = 1
    · simp only [hs, beq_self_eq_true, if_true, Outcome.returned.injEq, true_and] at h
      exact ⟨h.symm, by simp [Event.IsSet, hs]⟩
    · have hs2 : (m.LoadUint32 == 1) = false := by simpa using hs
      simp only [hs2, Event.notifyChan, Bool.false_eq_true, if_false] at h
      split at h
      · rw [AddInt32_cancel h1 h2] at h
        exact ih h1 h2 h
      · simp at h

theorem WaitTimeoutLoop_returned (timeout : Int) (timerFirst : Bool) (fuel : Nat) :
    ∀ {m m1 : Mem} {isTimeout r : Bool},
      -2147483648 ≤ m.readerCount → m.readerCount < 2147483648 →
      Event.WaitTimeoutLoop timeout timerFirst fuel isTimeout m = .returned r m1 →
      m1 = m ∧ r = Event.IsSet m := by
  induction fuel with
  | zero => intro m m1 b r _ _ h; simp [Event.WaitTimeoutLoop] at h
  | succ n ih =>
    intro m m1 b r h1 h2 h
    unfold Event.WaitTimeoutLoop at h
    by_cases hs : m.LoadUint32 = 1
    · simp only [hs, beq_self_eq_true, if_true, Outcome.returned.injEq] at h
      exact ⟨h.2.symm, by simp [Event.IsSet, hs, h.1]⟩
    · have hs2 : (m.LoadUint32 == 1) = false := by simpa using hs
      simp only [hs2, Event.notifyChan, Bool.false_eq_true, if_false] at h
      cases b with
      | true =>
        simp only [if_true, Bool.false_eq_true, if_false, Outcome.returned.injEq] at h
        exact ⟨h.2.symm, by simp [Event.IsSet, hs2, h.1]⟩
      | false =>
        simp only [Bool.false_eq_true, if_false] at h
        rw [AddInt32_cancel h1 h2] at h
        exact ih h1 h2 h

/-- On a well-formed event `WaitTimeout` run alone returns within two
iterations: `true` at once if the flag is set, otherwise `false` after the
timer has fired, and the memory is what it was. -/
theorem WaitTimeout_alone (timeout : Int) (timerFirst : Bool) (fuel : Nat) {m : Mem}
    (h : m.WF) :
    Event.WaitTimeout timeout timerFirst (fuel + 2) m = .returned (Event.IsSet m) m := by
  obtain ⟨-, h1, h2, hc⟩ := h
  unfold Event.WaitTimeout Event.WaitTimeoutLoop
  by_cases hs : m.LoadUint32 = 1
  · simp [hs, Event.IsSet]
  · have hs2 : (m.LoadUint32 == 1) = false := by simpa using hs
    have hcl : (m.AddInt32 1).isClosed (m.AddInt32 1).LoadPointer = false := by
      simp [Mem.isClosed, Mem.AddInt32, Mem.LoadPointer, List.getD_eq_getElem?_getD, hc]
    simp only [hs2, Event.notifyChan, hcl, Bool.false_eq_true, if_false, Bool.not_false,
      Bool.true_or, AddInt32_cancel h1 h2]
    unfold Event.WaitTimeoutLoop
    simp [hs2, Event.IsSet]

/-! ## The claims about the interleaved system -/

/-- C5. A gate is opened at most once: in every state reachable from `NewEvent`
by any interleaving of the atomic steps of the operations, the current channel
is not closed, no goroutine has panicked, every channel a broadcast is about to
close is not closed, is not the current one and is held by that broadcast
alone, and the closing step closes it without a panic. -/
theorem gate_opened_at_most_once (s : Sys) (h : Reachable s) :
    s.mem.closed[s.mem.channel]? = some false ∧
      s.mem.isClosed s.mem.channel = false ∧
      (∀ i : Nat, s.threads[i]? ≠ some Thread.crashed) ∧
      (∀ i a : Nat, s.threads[i]? = some (Thread.setClose a) →
        s.mem.isClosed a = false ∧ a ≠ s.mem.channel ∧
        (∀ j : Nat, s.threads[j]? = some (Thread.setClose a) → j = i) ∧
        ∀ fire : Bool, ∃ s1, s.exec (.step i fire) = some s1 ∧
          s1.threads[i]? = some (Thread.ret none) ∧ s1.mem.isClosed a = true ∧
          s1.mem.closed = s.mem.closed.set a true) := by
  have hI := Inv_of_reachable h
  refine ⟨hI.cur_open, ?_, hI.no_crash, ?_⟩
  · simp [Mem.isClosed, List.getD_eq_getElem?_getD, hI.cur_open]
  · intro i a hi
    obtain ⟨ho, hne⟩ := hI.pend_open i a hi
    have hlt := getElem?_lt_of_some ho
    have hilt := getElem?_lt_of_some hi
    refine ⟨?_, hne, fun j hj => hI.pend_distinct j i a hj hi, fun fire => ?_⟩
    · simp [Mem.isClosed, List.getD_eq_getElem?_getD, ho]
    · refine ⟨{ mem := { s.mem with closed := s.mem.closed.set a true },
                threads := s.threads.set i (.ret none) }, ?_, ?_, ?_, rfl⟩
      · simp [Sys.exec, hi, Thread.step, Mem.close, ho]
      · simp [List.getElem?_set, hilt]
      · simp [Mem.isClosed, List.getD_eq_getElem?_getD, List.getElem?_set, hlt]

/-- Witness for C5: a broadcast about to close the channel a waiter is blocked on. -/
theorem gate_opened_at_most_once_witness :
    Reachable sysBroadcasting ∧
      sysBroadcasting.threads[1]? = some (Thread.setClose 0) ∧
      sysBroadcasting.mem.closed[sysBroadcasting.mem.channel]? = some false ∧
      sysBroadcasting.exec (.step 1 false) =
        some { mem := { state := 1, readerCount := 1, channel := 1, closed := [true, false] },
               threads := [.waitRecv 0, .ret none] } :=
  ⟨⟨schedBroadcasting, by decide⟩, by decide,
    (gate_opened_at_most_once sysBroadcasting ⟨schedBroadcasting, by decide⟩).1, by decide⟩

/-- C9. Waiting on a signaled event is immediate and effect-free: if the flag
is set, `Wait` returns and `WaitTimeout d` returns true for every `d`, leaving
the memory exactly as it was; as a goroutine, the call takes one step, the load
of the flag, and has returned. -/
theorem wait_on_signaled (m : Mem) (h : Event.IsSet m = true) :
    (∀ fuel : Nat, Event.Wait (fuel + 1) m = .returned () m) ∧
      (∀ (d : Int) (timerFirst : Bool) (fuel : Nat),
        Event.WaitTimeout d timerFirst (fuel + 1) m = .returned true m) ∧
      (∀ fire : Bool, Thread.step m fire (Op.start .Wait) = some (m, .ret none)) ∧
      (∀ (fire : Bool) (d : Int),
        Thread.step m fire (Op.start (.WaitTimeout d)) = some (m, .ret (some true))) := by
  simp only [Event.IsSet] at h
  refine ⟨fun fuel => ?_, fun d tf fuel => ?_, fun fire => ?_, fun fire d => ?_⟩
  · simp [Event.Wait, h]
  · simp [Event.WaitTimeout, Event.WaitTimeoutLoop, h]
  · simp [Op.start, Thread.step, h]
  · simp [Op.start, Thread.step, h]

/-- Witness for C9: a fresh event after `Set`. -/
theorem wait_on_signaled_witness :
    Event.Set NewEvent = some { state := 1, readerCount := 0, channel := 0, closed := [false] } ∧
      Event.IsSet { state := 1, readerCount := 0, channel := 0, closed := [false] } = true ∧
      Event.Wait 1 { state := 1, readerCount := 0, channel := 0, closed := [false] } =
        .returned () { state := 1, readerCount := 0, channel := 0, closed := [false] } :=
  ⟨by decide, by decide, (wait_on_signaled _ (by decide)).1 0⟩

/-- A step of `WaitTimeout` that returns is the check at the top of the loop:
it has read the flag, and returns whether the flag was set (and false only
after the timer has fired). -/
theorem step_wt_ret {m m1 : Mem} {t : Thread} {fire r : Bool} (ht : t.inWaitTimeout = true)
    (h : t.step m fire = some (m1, .ret (some r))) :
    m1 = m ∧ r = Event.IsSet m ∧ ∃ d b, t = .wtCheck d b ∧ (r = false → b = true) := by
  cases t <;> simp only [Thread.inWaitTimeout, Bool.false_eq_true] at ht
  case wtCheck d b =>
    simp only [Thread.step, Option.some.injEq, Prod.mk.injEq] at h
    obtain ⟨h1, h2⟩ := h
    by_cases hs : m.LoadUint32 = 1
    · simp only [hs, beq_self_eq_true, if_true, Thread.ret.injEq, Option.some.injEq] at h2
      exact ⟨h1.symm, by simp [Event.IsSet, hs, ← h2], d, b, rfl, by simp [← h2]⟩
    · have hs2 : (m.LoadUint32 == 1) = false := by simpa using hs
      cases b with
      | true =>
        simp only [hs2, Bool.false_eq_true, if_false, if_true, Thread.ret.injEq,
          Option.some.injEq] at h2
        exact ⟨h1.symm, by simp [Event.IsSet, hs2, ← h2], d, true, rfl, fun _ => rfl⟩
      | false => simp [hs2] at h2
  case wtSelect d ch =>
    simp only [Thread.step] at h
    split at h
    · simp at h
    · split at h <;> simp at h
  all_goals simp [Thread.step] at h

/-- C7. On timeout the result of `WaitTimeout` is decided by one final check of
the flag: once the timer case of the `select` is taken, the goroutine
decrements the counter, reads the flag once and returns what it read, whatever
the other goroutines did meanwhile; run alone on a well-formed unsignaled event
`WaitTimeout` returns false; and `WaitTimeout` returns true only from a check
that read the flag as set. -/
theorem WaitTimeout_final_check :
    (∀ (m : Mem) (d : Int) (ch : Nat),
        Thread.step m true (.wtSelect d ch) = some (m, .wtDec d true)) ∧
      (∀ (m : Mem) (fire : Bool) (d : Int),
        Thread.step m fire (.wtDec d true) = some (m.AddInt32 (-1), .wtCheck d true)) ∧
      (∀ (m : Mem) (fire : Bool) (d : Int),
        Thread.step m fire (.wtCheck d true) = some (m, .ret (some (Event.IsSet m)))) ∧
      (∀ (m : Mem) (d : Int) (timerFirst : Bool) (fuel : Nat), m.WF → Event.IsSet m = false →
        Event.WaitTimeout d timerFirst (fuel + 2) m = .returned false m) ∧
      (∀ (m m1 : Mem) (t : Thread) (fire : Bool), t.inWaitTimeout = true →
        t.step m fire = some (m1, .ret (some true)) →
        Event.IsSet m = true ∧ m1 = m ∧ ∃ d b, t = .wtCheck d b) ∧
      (∀ (m m1 : Mem) (d : Int) (timerFirst : Bool) (fuel : Nat),
        -2147483648 ≤ m.readerCount → m.readerCount < 2147483648 →
        Event.WaitTimeout d timerFirst fuel m = .returned true m1 →
        Event.IsSet m = true ∧ m1 = m) := by
  refine ⟨fun m d ch => rfl, fun m fire d => rfl, fun m fire d => ?_,
    fun m d tf fuel hwf hs => ?_, fun m m1 t fire ht h => ?_, fun m m1 d tf fuel h1 h2 h => ?_⟩
  · by_cases hs : m.LoadUint32 = 1
    · simp [Thread.step, Event.IsSet, hs]
    · have hs2 : (m.LoadUint32 == 1) = false := by simpa using hs
      simp [Thread.step, Event.IsSet, hs2]
  · rw [WaitTimeout_alone d tf fuel hwf, hs]
  · obtain ⟨h1, h2, d, b, h3, -⟩ := step_wt_ret ht h
    exact ⟨h2.symm, h1, d, b, h3⟩
  · obtain ⟨h3, h4⟩ := WaitTimeoutLoop_returned d tf fuel h1 h2 h
    exact ⟨h4.symm, h3⟩

/-- Witness for C7: `WaitTimeout` on a fresh event, alone and as a goroutine
whose timer fires. -/
theorem WaitTimeout_final_check_witness :
    NewEvent.WF ∧ Event.IsSet NewEvent = false ∧
      Event.WaitTimeout 5 false 2 NewEvent = .returned false NewEvent ∧
      Sys.run ⟨NewEvent, [Op.start (.WaitTimeout 5)]⟩
          [.step 0 false, .step 0 false, .step 0 false, .step 0 true, .step 0 false,
           .step 0 false] =
        some ⟨NewEvent, [.ret (some false)]⟩ :=
  ⟨by decide, by decide, WaitTimeout_final_check.2.2.2.1 NewEvent 5 false 0 (by decide) (by decide),
    by decide⟩

/-- C8. The waiter count is balanced: in every reachable state `readerCount` is
the number of goroutines between their increment and their decrement (as an
`int32`), a goroutine that is at the top of the loop or has returned is not
among them, each path out of the blocking step (channel closed, timer fired)
leads to the one decrement, and a `Wait` or `WaitTimeout` that returns when run
alone leaves the memory, hence the count, as it found it. -/
theorem readerCount_balanced :
    (∀ s : Sys, Reachable s → s.mem.readerCount = wrap32 s.registeredCount) ∧
      (∀ (d : Int) (b : Bool) (r : Option Bool), Thread.waitCheck.registered = false ∧
        (Thread.wtCheck d b).registered = false ∧ (Thread.ret r).registered = false ∧
        Thread.waitAdd.registered = false ∧ (Thread.wtAdd d).registered = false) ∧
      (∀ (m : Mem) (fire : Bool) (d : Int) (ch : Nat) (b : Bool),
        Thread.step m fire .waitAdd = some (m.AddInt32 1, .waitLoadPtr) ∧
        Thread.step m fire .waitLoadPtr = some (m, .waitRecv m.channel) ∧
        Thread.step m fire (.waitRecv ch) = (if m.isClosed ch then some (m, .waitDec) else none) ∧
        Thread.step m fire .waitDec = some (m.AddInt32 (-1), .waitCheck) ∧
        Thread.step m fire (.wtAdd d) = some (m.AddInt32 1, .wtLoadPtr d) ∧
        Thread.step m fire (.wtLoadPtr d) = some (m, .wtSelect d m.channel) ∧
        Thread.step m true (.wtSelect d ch) = some (m, .wtDec d true) ∧
        Thread.step m false (.wtSelect d ch) =
          (if m.isClosed ch then some (m, .wtDec d false) else none) ∧
        Thread.step m fire (.wtDec d b) = some (m.AddInt32 (-1), .wtCheck d b)) ∧
      (∀ (m m1 : Mem) (fuel : Nat),
        -2147483648 ≤ m.readerCount → m.readerCount < 2147483648 →
        Event.Wait fuel m = .returned () m1 → m1 = m) ∧
      (∀ (m m1 : Mem) (d : Int) (timerFirst r : Bool) (fuel : Nat),
        -2147483648 ≤ m.readerCount → m.readerCount < 2147483648 →
        Event.WaitTimeout d timerFirst fuel m = .returned r m1 → m1 = m) := by
  refine ⟨fun s h => (Inv_of_reachable h).count, fun d b r => ⟨rfl, rfl, rfl, rfl, rfl⟩,
    fun m fire d ch b => ⟨rfl, rfl, rfl, rfl, rfl, rfl, rfl, ?_, rfl⟩,
    fun m m1 fuel h1 h2 h => (Wait_returned fuel h1 h2 h).1,
    fun m m1 d tf r fuel h1 h2 h => (WaitTimeoutLoop_returned d tf fuel h1 h2 h).1⟩
  simp [Thread.step]

/-! ## A `Set` call wakes the waiters blocked on the current channel -/

theorem run_append (a : List Action) :
    ∀ (s : Sys) (b : List Action), s.run (a ++ b) = (s.run a).bind fun s1 => s1.run b := by
  induction a with
  | nil => intro s b; rfl
  | cons x rest ih =>
    intro s b
    simp only [List.cons_append, Sys.run]
    cases s.exec x with
    | none => rfl
    | some s1 => exact ih s1 b

theorem exec_last {m m1 : Mem} {l : List Thread} {t t1 : Thread} {fire : Bool}
    (h : t.step m fire = some (m1, t1)) :
    Sys.exec ⟨m, l ++ [t]⟩ (.step l.length fire) = some ⟨m1, l ++ [t1]⟩ := by
  simp [Sys.exec, h]

/-- A waiter blocked on a closed channel of a signaled event returns in three steps. -/
theorem wake_one {s : Sys} {i g : Nat} (hs : s.mem.state = 1) (hg : s.mem.isClosed g = true)
    (hi : s.threads[i]? = some (Thread.waitRecv g)) :
    s.run (runThread i 3) =
      some { mem := s.mem.AddInt32 (-1), threads := s.threads.set i (.ret none) } := by
  have hlt := getElem?_lt_of_some hi
  simp [runThread, List.replicate, Sys.run, Sys.exec, hi, Thread.step, hg, hlt,
    Mem.AddInt32, Mem.LoadUint32, hs]

theorem wake_all (g : Nat) (ws : List Nat) :
    ∀ s : Sys, ws.Nodup → s.mem.state = 1 → s.mem.isClosed g = true →
      -2147483648 ≤ s.mem.readerCount → s.mem.readerCount < 2147483648 →
      (∀ i ∈ ws, s.threads[i]? = some (Thread.waitRecv g)) →
      ∃ s2, s.run (wakeAll ws) = some s2 ∧
        (∀ i ∈ ws, s2.threads[i]? = some (Thread.ret none)) ∧
        (∀ j, j ∉ ws → s2.threads[j]? = s.threads[j]?) ∧
        s2.mem.state = 1 ∧ s2.mem.closed = s.mem.closed ∧ s2.mem.channel = s.mem.channel ∧
        s2.mem.readerCount = wrap32 (s.mem.readerCount - ws.length) := by
  induction ws with
  | nil =>
    intro s _ hs _ h1 h2 _
    refine ⟨s, rfl, by simp, by simp, hs, rfl, rfl, ?_⟩
    simp only [List.length_nil, Nat.cast_zero, sub_zero]
    exact (wrap32_id h1 h2).symm
  | cons i rest ih =>
    intro s hnd hs hg h1 h2 hw
    obtain ⟨hni, hnd2⟩ := List.nodup_cons.1 hnd
    have hi := hw i (List.mem_cons_self i rest)
    have hlt := getElem?_lt_of_some hi
    have hr := wrap32_range (s.mem.readerCount + -1)
    obtain ⟨s2, hrun, hret, hother, hst, hcl, hch, hcnt⟩ :=
      ih { mem := s.mem.AddInt32 (-1), threads := s.threads.set i (.ret none) } hnd2 hs hg
        hr.1 hr.2 (by
          intro j hj
          have hji : i ≠ j := fun h => hni (h ▸ hj)
          simp only [List.getElem?_set_ne hji]
          exact hw j (List.mem_cons_of_mem i hj))
    refine ⟨s2, ?_, ?_, ?_, hst, hcl, hch, ?_⟩
    · simp only [wakeAll, run_append, wake_one hs hg hi, Option.bind_some]
      exact hrun
    · intro j hj
      rcases List.mem_cons.1 hj with hji | hjr
      · subst hji
        rw [hother j hni]
        simp [hlt]
      · exact hret j hjr
    · intro j hj
      have hji : i ≠ j := fun h => hj (h ▸ List.mem_cons_self i rest)
      rw [hother j (fun h => hj (List.mem_cons_of_mem i h))]
      simp only [List.getElem?_set_ne hji]
    · rw [hcnt]
      simp only [Mem.AddInt32, List.length_cons, Nat.cast_add, Nat.cast_one]
      unfold wrap32; omega

/-- A `Set` call run without interruption on an unsignaled event with a
positive counter: it sets the flag, installs a fresh channel and closes the
previous one. -/
theorem setCall_broadcast {s : Sys} (h0 : s.mem.state = 0) (hpos : s.mem.readerCount > 0)
    (hc : s.mem.closed[s.mem.channel]? = some false) :
    s.run (setCall s.threads.length) =
      some { mem := { s.mem with state := 1, channel := s.mem.closed.length,
                                 closed := (s.mem.closed ++ [false]).set s.mem.channel true },
             threads := s.threads ++ [.ret none] } := by
  have hlt := getElem?_lt_of_some hc
  have e1 : Sys.exec ⟨s.mem, s.threads ++ [Thread.setCAS]⟩ (.step s.threads.length false) =
      some ⟨{ s.mem with state := 1 }, s.threads ++ [Thread.setLoad]⟩ :=
    exec_last (by simp [Thread.step, Mem.CompareAndSwapUint32, h0])
  have e2 : Sys.exec ⟨{ s.mem with state := 1 }, s.threads ++ [Thread.setLoad]⟩
      (.step s.threads.length false) =
      some ⟨{ s.mem with state := 1 }, s.threads ++ [Thread.setSwap]⟩ :=
    exec_last (by simp [Thread.step, Mem.LoadInt32, hpos])
  have e3 : Sys.exec ⟨{ s.mem with state := 1 }, s.threads ++ [Thread.setSwap]⟩
      (.step s.threads.length false) =
      some ⟨{ s.mem with state := 1, channel := s.mem.closed.length,
                         closed := s.mem.closed ++ [false] },
        s.threads ++ [Thread.setClose s.mem.channel]⟩ :=
    exec_last (by simp [Thread.step, Mem.makeChan, Mem.SwapPointer])
  have e4 : Sys.exec ⟨{ s.mem with state := 1, channel := s.mem.closed.length,
                                    closed := s.mem.closed ++ [false] },
        s.threads ++ [Thread.setClose s.mem.channel]⟩ (.step s.threads.length false) =
      some ⟨{ s.mem with state := 1, channel := s.mem.closed.length,
                         closed := (s.mem.closed ++ [false]).set s.mem.channel true },
        s.threads ++ [Thread.ret none]⟩ :=
    exec_last (by simp [Thread.step, Mem.close, List.getElem?_append_left hlt, hc])
  have e0 : s.exec (.spawn .Set) = some ⟨s.mem, s.threads ++ [Thread.setCAS]⟩ := rfl
  simp only [setCall, runThread, List.replicate, Sys.run]
  rw [e0, Option.some_bind, e1, Option.some_bind, e2, Option.some_bind, e3, Option.some_bind, e4,
    Option.some_bind]

/-- With fewer than 2^31 registered goroutines, one of them being registered
makes the counter positive. -/
theorem readerCount_pos {s : Sys} (hI : Inv s) (hb : s.registeredCount < 2147483648)
    {i : Nat} {t : Thread} (hi : s.threads[i]? = some t) (hr : t.registered = true) :
    s.mem.readerCount > 0 := by
  have hpos : 0 < s.registeredCount :=
    List.countP_pos_iff.2 ⟨t, List.getElem?_mem hi, hr⟩
  rw [hI.count, wrap32_id (by omega) (by omega)]
  omega

/-- C2. A `Set` call wakes the waiters blocked on the current gate: in every
reachable state whose flag is false and in which the goroutines `ws` (at least
one, fewer than 2^31 registered in all) are blocked in `Wait` on the current
channel, a `Set` call run to its end closes exactly that channel and sets the
flag, and then each goroutine of `ws`, once scheduled, decrements the counter,
reads the flag as true and returns. This covers `Set(); Clear(); Wait()` blocked;
`Set()` on a fresh event, where the first `Set` did not broadcast. -/
theorem Set_wakes_blocked_waiters :
    (∀ (s : Sys) (ws : List Nat), Reachable s → Event.IsSet s.mem = false →
      ws ≠ [] → ws.Nodup → s.registeredCount < 2147483648 →
      (∀ i ∈ ws, s.threads[i]? = some (Thread.waitRecv s.mem.channel)) →
      (∀ i ∈ ws, ∀ fire : Bool, s.exec (.step i fire) = none) ∧
      ∃ s1 s2, s.run (setCall s.threads.length) = some s1 ∧
        s1.mem.closed = (s.mem.closed ++ [false]).set s.mem.channel true ∧
        s.mem.isClosed s.mem.channel = false ∧
        s1.mem.isClosed s.mem.channel = true ∧
        Event.IsSet s1.mem = true ∧
        s1.threads = s.threads ++ [Thread.ret none] ∧
        s1.run (wakeAll ws) = some s2 ∧
        (∀ i ∈ ws, s2.threads[i]? = some (Thread.ret none)) ∧
        Event.IsSet s2.mem = true ∧
        s2.mem.readerCount = wrap32 (s.mem.readerCount - ws.length)) ∧
      (Sys.init.run schedSetClearWait = some sysSetClearWait ∧
        (Sys.init.run (schedSetClearWait.take 3)).map Sys.mem =
          some { state := 1, readerCount := 0, channel := 0, closed := [false] } ∧
        sysSetClearWait.exec (.step 2 false) = none ∧
        sysSetClearWait.run (setCall 3 ++ wakeAll [2]) =
          some { mem := { state := 1, readerCount := 0, channel := 1, closed := [true, false] },
                 threads := [.ret none, .ret none, .ret none, .ret none] }) := by
  refine ⟨?_, by decide⟩
  intro s ws hr hflag hne hnd hb hw
  have hI := Inv_of_reachable hr
  have h0 : s.mem.state = 0 := by
    have := hI.state_le
    simp only [Event.IsSet, Mem.LoadUint32, beq_eq_false_iff_ne] at hflag
    omega
  obtain ⟨i, hi⟩ := List.exists_mem_of_ne_nil ws hne
  have hpos := readerCount_pos hI hb (hw i hi) rfl
  have hclt := getElem?_lt_of_some hI.cur_open
  have hclosed : ∀ m : Mem, m.closed = (s.mem.closed ++ [false]).set s.mem.channel true →
      m.isClosed s.mem.channel = true := by
    intro m hm
    have hlt2 : s.mem.channel < s.mem.closed.length + 1 := by omega
    simp [Mem.isClosed, List.getD_eq_getElem?_getD, hm, List.getElem?_set, hlt2]
  have hrng := wrap32_range s.registeredCount
  obtain ⟨s2, hrun, hret, -, hst, -, -, hcnt⟩ :=
    wake_all s.mem.channel ws
      { mem := { s.mem with state := 1, channel := s.mem.closed.length,
                            closed := (s.mem.closed ++ [false]).set s.mem.channel true },
        threads := s.threads ++ [.ret none] } hnd rfl (hclosed _ rfl)
      (by rw [hI.count]; exact hrng.1) (by rw [hI.count]; exact hrng.2)
      (by
        intro j hj
        have hj2 := hw j hj
        simp only [List.getElem?_append_left (getElem?_lt_of_some hj2)]
        exact hj2)
  have hopen : s.mem.isClosed s.mem.channel = false := by
    simp [Mem.isClosed, List.getD_eq_getElem?_getD, hI.cur_open]
  refine ⟨fun j hj fire => ?_, _, s2, setCall_broadcast h0 hpos hI.cur_open, rfl, hopen,
    hclosed _ rfl, rfl, rfl, hrun, hret, ?_, hcnt⟩
  · simp [Sys.exec, hw j hj, Thread.step, hopen]
  · simp [Event.IsSet, Mem.LoadUint32, hst]

/-- Witness for C2: the state after `Set(); Clear(); Wait()` on a fresh event. -/
theorem Set_wakes_blocked_waiters_witness :
    Reachable sysSetClearWait ∧ Event.IsSet sysSetClearWait.mem = false ∧
      sysSetClearWait.threads[2]? = some (Thread.waitRecv sysSetClearWait.mem.channel) ∧
      (∀ i ∈ [2], ∀ fire : Bool, sysSetClearWait.exec (.step i fire) = none) ∧
      ∃ s1 s2, sysSetClearWait.run (setCall sysSetClearWait.threads.length) = some s1 ∧
        s1.mem.closed =
          (sysSetClearWait.mem.closed ++ [false]).set sysSetClearWait.mem.channel true ∧
        sysSetClearWait.mem.isClosed sysSetClearWait.mem.channel = false ∧
        s1.mem.isClosed sysSetClearWait.mem.channel = true ∧
        Event.IsSet s1.mem = true ∧
        s1.threads = sysSetClearWait.threads ++ [Thread.ret none] ∧
        s1.run (wakeAll [2]) = some s2 ∧
        (∀ i ∈ [2], s2.threads[i]? = some (Thread.ret none)) ∧
        Event.IsSet s2.mem = true ∧
        s2.mem.readerCount = wrap32 (sysSetClearWait.mem.readerCount - ([2] : List Nat).length) :=
  ⟨⟨schedSetClearWait, by decide⟩, by decide, by decide,
    Set_wakes_blocked_waiters.1 sysSetClearWait [2] ⟨schedSetClearWait, by decide⟩ (by decide)
      (by decide) (by decide) (by decide) (by decide)⟩

/-- Witness for C8: a `Wait` that blocks, is woken by a broadcast and returns
leaves the counter at 0, and so does a `WaitTimeout` run alone. -/
theorem readerCount_balanced_witness :
    Sys.init.run schedWaitSetWake =
        some { mem := { state := 1, readerCount := 0, channel := 1, closed := [true, false] },
               threads := [.ret none, .ret none] } ∧
      sysBroadcasting.mem.readerCount = wrap32 sysBroadcasting.registeredCount ∧
      Event.WaitTimeout 5 false 2 NewEvent = .returned false NewEvent ∧
      (NewEvent : Mem) = NewEvent :=
  ⟨by decide, readerCount_balanced.1 sysBroadcasting ⟨schedBroadcasting, by decide⟩, by decide,
    readerCount_balanced.2.2.2.2 NewEvent NewEvent 5 false false 2 (by decide) (by decide)
      (by decide)⟩

/-! ## A lost wakeup -/

/-- C1 fails on the code. One `Wait` and one `Set` on a fresh event: the waiter
has incremented `readerCount` (second conjunct: the counter is 1 while the `Set`
has not taken a step), `Set` sees the waiter and broadcasts, but the waiter
loads the channel after the exchange. In the state reached the flag is set,
`Set` has returned, the waiter is blocked on a channel that is not closed, and
no goroutine can move. -/
theorem lost_wakeup :
    Sys.init.run schedLostWakeup = some sysLostWakeup ∧
      Sys.init.run (schedLostWakeup.take 4) =
        some { mem := { state := 0, readerCount := 1, channel := 0, closed := [false] },
               threads := [.waitLoadPtr, .setCAS] } ∧
      Reachable sysLostWakeup ∧
      Event.IsSet sysLostWakeup.mem = true ∧
      sysLostWakeup.threads = [Thread.waitRecv 1, Thread.ret none] ∧
      sysLostWakeup.mem.isClosed 1 = false ∧
      (∀ (tid : Nat) (fire : Bool), sysLostWakeup.exec (.step tid fire) = none) := by
  refine ⟨by decide, by decide, ⟨schedLostWakeup, by decide⟩, by decide, rfl, by decide, ?_⟩
  intro tid fire
  match tid with
  | 0 => rfl
  | 1 => rfl
  | n + 2 => rfl

/-! ## The sequential operations are the goroutines run alone -/

theorem runAlone_stuck (timerFirst : Bool) (n : Nat) {m : Mem} {t : Thread}
    (h : stepAlone timerFirst m t = none) : runAlone timerFirst n m t = (m, t) := by
  cases n with
  | zero => rfl
  | succ k => simp [runAlone, h]

theorem runAlone_step (timerFirst : Bool) (n : Nat) (m : Mem) (t : Thread) {m1 : Mem}
    {t1 : Thread} (h : stepAlone timerFirst m t = some (m1, t1)) :
    runAlone timerFirst (n + 1) m t = runAlone timerFirst n m1 t1 := by
  simp [runAlone, h]

/-- The function `Event.Set` is the `Set` goroutine run alone. -/
theorem Set_runAlone (timerFirst : Bool) (n : Nat) (m : Mem) :
    (∀ m1, Event.Set m = some m1 →
        runAlone timerFirst (n + 4) m (Op.start .Set) = (m1, .ret none)) ∧
      (Event.Set m = none → (runAlone timerFirst (n + 4) m (Op.start .Set)).2 = .crashed) := by
  have hret : ∀ (k : Nat) (m2 : Mem), runAlone timerFirst k m2 (.ret none) = (m2, .ret none) :=
    fun k m2 => runAlone_stuck timerFirst k rfl
  have hcr : ∀ (k : Nat) (m2 : Mem), runAlone timerFirst k m2 .crashed = (m2, .crashed) :=
    fun k m2 => runAlone_stuck timerFirst k rfl
  rw [Set_eq]
  simp only [Op.start]
  by_cases h0 : m.state = 0
  · have s1 : stepAlone timerFirst m .setCAS = some (⟨1, m.readerCount, m.channel, m.closed⟩,
        .setLoad) := by
      simp [stepAlone, Thread.step, Mem.CompareAndSwapUint32, h0]
    rw [if_pos h0, runAlone_step timerFirst (n + 3) m .setCAS s1]
    by_cases hr : m.readerCount > 0
    · have s2 : stepAlone timerFirst ⟨1, m.readerCount, m.channel, m.closed⟩ .setLoad =
          some (⟨1, m.readerCount, m.channel, m.closed⟩, .setSwap) := by
        simp [stepAlone, Thread.step, Mem.LoadInt32, hr]
      have s3 : stepAlone timerFirst ⟨1, m.readerCount, m.channel, m.closed⟩ .setSwap =
          some (⟨1, m.readerCount, m.closed.length, m.closed ++ [false]⟩,
            .setClose m.channel) := by
        simp [stepAlone, Thread.step, Mem.makeChan, Mem.SwapPointer]
      rw [if_pos hr, runAlone_step timerFirst (n + 2) _ _ s2,
        runAlone_step timerFirst (n + 1) _ _ s3]
      have hb : Event.broadcast ⟨1, m.readerCount, m.channel, m.closed⟩ =
          Mem.close ⟨1, m.readerCount, m.closed.length, m.closed ++ [false]⟩ m.channel := rfl
      show (∀ m1, Event.broadcast ⟨1, m.readerCount, m.channel, m.closed⟩ = some m1 → _) ∧
        (Event.broadcast ⟨1, m.readerCount, m.channel, m.closed⟩ = none → _)
      rw [hb]
      cases hcl : Mem.close ⟨1, m.readerCount, m.closed.length, m.closed ++ [false]⟩
          m.channel with
      | none =>
        have s4 : stepAlone timerFirst ⟨1, m.readerCount, m.closed.length, m.closed ++ [false]⟩
            (.setClose m.channel) =
            some (⟨1, m.readerCount, m.closed.length, m.closed ++ [false]⟩, .crashed) := by
          simp [stepAlone, Thread.step, hcl]
        refine ⟨fun m1 h => by simp at h, fun _ => ?_⟩
        rw [runAlone_step timerFirst n _ _ s4, hcr]
      | some m2 =>
        have s4 : stepAlone timerFirst ⟨1, m.readerCount, m.closed.length, m.closed ++ [false]⟩
            (.setClose m.channel) = some (m2, .ret none) := by
          simp [stepAlone, Thread.step, hcl]
        refine ⟨fun m1 h => ?_, fun h => by simp at h⟩
        simp only [Option.some.injEq] at h
        subst h
        rw [runAlone_step timerFirst n _ _ s4, hret]
    · have s2 : stepAlone timerFirst ⟨1, m.readerCount, m.channel, m.closed⟩ .setLoad =
          some (⟨1, m.readerCount, m.channel, m.closed⟩, .ret none) := by
        simp [stepAlone, Thread.step, Mem.LoadInt32, hr]
      rw [if_neg hr, runAlone_step timerFirst (n + 2) _ _ s2, hret]
      exact ⟨fun m1 h => by simp only [Option.some.injEq] at h; rw [← h],
        fun h => by simp at h⟩
  · have s1 : stepAlone timerFirst m .setCAS = some (m, .ret none) := by
      simp [stepAlone, Thread.step, Mem.CompareAndSwapUint32, h0]
    rw [if_neg h0, runAlone_step timerFirst (n + 3) m .setCAS s1, hret]
    exact ⟨fun m1 h => by simp only [Option.some.injEq] at h; rw [h], fun h => by simp at h⟩

/-- The functions `Event.Clear` and `Event.IsSet` are their goroutines run alone. -/
theorem Clear_IsSet_runAlone (timerFirst : Bool) (n : Nat) (m : Mem) :
    runAlone timerFirst (n + 1) m (Op.start .Clear) = (Event.Clear m, .ret none) ∧
      runAlone timerFirst (n + 1) m (Op.start .IsSet) = (m, .ret (some (Event.IsSet m))) := by
  constructor
  · have s1 : stepAlone timerFirst m (Op.start .Clear) = some (Event.Clear m, .ret none) := rfl
    rw [runAlone_step timerFirst n m (Op.start .Clear) s1]
    exact runAlone_stuck timerFirst n rfl
  · have s1 : stepAlone timerFirst m (Op.start .IsSet) =
        some (m, .ret (some (Event.IsSet m))) := rfl
    rw [runAlone_step timerFirst n m (Op.start .IsSet) s1]
    exact runAlone_stuck timerFirst n rfl

/-- The function `Event.Wait` is the `Wait` goroutine run alone: five steps per iteration. -/
theorem Wait_runAlone (timerFirst : Bool) (fuel : Nat) :
    ∀ (m m1 : Mem) (n : Nat),
      (Event.Wait fuel m = .returned () m1 →
        runAlone timerFirst (n + 5 * fuel) m (Op.start .Wait) = (m1, .ret none)) ∧
      (Event.Wait fuel m = .blocked m1 →
        runAlone timerFirst (n + 5 * fuel) m (Op.start .Wait) = (m1, .waitRecv m1.channel)) := by
  induction fuel with
  | zero => intro m m1 n; simp [Event.Wait]
  | succ k ih =>
    intro m m1 n
    have e : n + 5 * (k + 1) = (n + 5 * k) + 5 := by omega
    rw [e]
    simp only [Op.start] at ih ⊢
    unfold Event.Wait
    by_cases hs : m.LoadUint32 = 1
    · have s1 : stepAlone timerFirst m .waitCheck = some (m, .ret none) := by
        simp [stepAlone, Thread.step, hs]
      rw [runAlone_step timerFirst (n + 5 * k + 4) m .waitCheck s1,
        runAlone_stuck timerFirst _ (m := m) (t := .ret none) rfl]
      simp only [hs, beq_self_eq_true, if_true, Outcome.returned.injEq, true_and, reduceCtorEq,
        false_imp_iff, and_true]
      intro h; rw [h]
    · have hs2 : (m.LoadUint32 == 1) = false := by simpa using hs
      have s1 : stepAlone timerFirst m .waitCheck = some (m, .waitAdd) := by
        simp [stepAlone, Thread.step, hs2]
      have s2 : stepAlone timerFirst m .waitAdd = some (m.AddInt32 1, .waitLoadPtr) := rfl
      have s3 : stepAlone timerFirst (m.AddInt32 1) .waitLoadPtr =
          some (m.AddInt32 1, .waitRecv (m.AddInt32 1).LoadPointer) := rfl
      rw [runAlone_step timerFirst (n + 5 * k + 4) m .waitCheck s1,
        runAlone_step timerFirst (n + 5 * k + 3) m .waitAdd s2,
        runAlone_step timerFirst (n + 5 * k + 2) _ .waitLoadPtr s3]
      simp only [hs2, Bool.false_eq_true, if_false, Event.notifyChan]
      by_cases hc : (m.AddInt32 1).isClosed (m.AddInt32 1).LoadPointer = true
      · have s4 : stepAlone timerFirst (m.AddInt32 1) (.waitRecv (m.AddInt32 1).LoadPointer) =
            some (m.AddInt32 1, .waitDec) := by
          simp [stepAlone, Thread.step, hc]
        have s5 : stepAlone timerFirst (m.AddInt32 1) .waitDec =
            some ((m.AddInt32 1).AddInt32 (-1), .waitCheck) := rfl
        rw [runAlone_step timerFirst (n + 5 * k + 1) _ _ s4,
          runAlone_step timerFirst (n + 5 * k) _ _ s5]
        simp only [hc, if_true]
        exact ih _ m1 n
      · have s4 : stepAlone timerFirst (m.AddInt32 1) (.waitRecv (m.AddInt32 1).LoadPointer) =
            none := by
          simp [stepAlone, Thread.step, hc]
        rw [runAlone_stuck timerFirst _ s4]
        simp only [hc, Bool.false_eq_true, if_false, reduceCtorEq, false_imp_iff,
          Outcome.blocked.injEq, true_and]
        intro h; rw [← h]; rfl

/-- The function `Event.WaitTimeout` is the `WaitTimeout` goroutine run alone: five steps
per iteration. -/
theorem WaitTimeout_runAlone (timeout : Int) (timerFirst : Bool) (fuel : Nat) :
    ∀ (m m1 : Mem) (isTimeout r : Bool) (n : Nat),
      Event.WaitTimeoutLoop timeout timerFirst fuel isTimeout m = .returned r m1 →
      runAlone timerFirst (n + 5 * fuel) m (.wtCheck timeout isTimeout) =
        (m1, .ret (some r)) := by
  induction fuel with
  | zero => intro m m1 b r n h; simp [Event.WaitTimeoutLoop] at h
  | succ k ih =>
    intro m m1 b r n h
    have e : n + 5 * (k + 1) = (n + 5 * k) + 5 := by omega
    rw [e]
    unfold Event.WaitTimeoutLoop at h
    by_cases hs : m.LoadUint32 = 1
    · have s1 : stepAlone timerFirst m (.wtCheck timeout b) = some (m, .ret (some true)) := by
        simp [stepAlone, Thread.step, hs]
      rw [runAlone_step timerFirst (n + 5 * k + 4) m _ s1,
        runAlone_stuck timerFirst _ (m := m) (t := .ret (some true)) rfl]
      simp only [hs, beq_self_eq_true, if_true, Outcome.returned.injEq] at h
      rw [h.1, h.2]
    · have hs2 : (m.LoadUint32 == 1) = false := by simpa using hs
      simp only [hs2, Bool.false_eq_true, if_false, Event.notifyChan] at h
      cases b with
      | true =>
        have s1 : stepAlone timerFirst m (.wtCheck timeout true) =
            some (m, .ret (some false)) := by
          simp [stepAlone, Thread.step, hs2]
        rw [runAlone_step timerFirst (n + 5 * k + 4) m _ s1,
          runAlone_stuck timerFirst _ (m := m) (t := .ret (some false)) rfl]
        simp only [if_true, Outcome.returned.injEq] at h
        rw [h.1, h.2]
      | false =>
        simp only [Bool.false_eq_true, if_false] at h
        have s1 : stepAlone timerFirst m (.wtCheck timeout false) =
            some (m, .wtAdd timeout) := by
          simp [stepAlone, Thread.step, hs2]
        have s2 : stepAlone timerFirst m (.wtAdd timeout) =
            some (m.AddInt32 1, .wtLoadPtr timeout) := rfl
        have s3 : stepAlone timerFirst (m.AddInt32 1) (.wtLoadPtr timeout) =
            some (m.AddInt32 1, .wtSelect timeout (m.AddInt32 1).LoadPointer) := rfl
        have s4 : stepAlone timerFirst (m.AddInt32 1)
            (.wtSelect timeout (m.AddInt32 1).LoadPointer) =
            some (m.AddInt32 1, .wtDec timeout
              (!(m.AddInt32 1).isClosed (m.AddInt32 1).LoadPointer || timerFirst)) := by
          cases timerFirst <;>
            cases hc : (m.AddInt32 1).isClosed (m.AddInt32 1).LoadPointer <;>
            simp [stepAlone, Thread.step, hc]
        have s5 : stepAlone timerFirst (m.AddInt32 1) (.wtDec timeout
              (!(m.AddInt32 1).isClosed (m.AddInt32 1).LoadPointer || timerFirst)) =
            some ((m.AddInt32 1).AddInt32 (-1), .wtCheck timeout
              (!(m.AddInt32 1).isClosed (m.AddInt32 1).LoadPointer || timerFirst)) := rfl
        rw [runAlone_step timerFirst (n + 5 * k + 4) m _ s1,
          runAlone_step timerFirst (n + 5 * k + 3) m _ s2,
          runAlone_step timerFirst (n + 5 * k + 2) _ _ s3,
          runAlone_step timerFirst (n + 5 * k + 1) _ _ s4,
          runAlone_step timerFirst (n + 5 * k) _ _ s5]
        exact ih _ m1 _ r n h

/-! ## The containers -/

theorem GoKey_eq_left {K : Type} [GoKey K] {a b : K} (h : GoKey.eq a b = true) :
    GoKey.eq a a = true :=
  GoKey.trans a b a h (GoKey.symm a b h)

theorem GoKey_eq_right {K : Type} [GoKey K] {a b : K} (h : GoKey.eq a b = true) :
    GoKey.eq b b = true :=
  GoKey.trans b a b (GoKey.symm a b h) h

theorem assignEntry_length {K V : Type} [GoKey K] (k : K) (v : V) (l : List (K × V)) :
    (assignEntry k v l).length =
      if (lookupEntry k l).isSome then l.length else l.length + 1 := by
  induction l with
  | nil => simp [assignEntry, lookupEntry]
  | cons e rest ih =>
    obtain ⟨k1, v1⟩ := e
    cases h : GoKey.eq k1 k
    · simp only [assignEntry, lookupEntry, h, Bool.false_eq_true, if_false, List.length_cons, ih]
      split <;> rfl
    · simp [assignEntry, lookupEntry, h]

theorem lookupEntry_assignEntry_self {K V : Type} [GoKey K] (k : K) (v : V)
    (l : List (K × V)) :
    lookupEntry k (assignEntry k v l) = if GoKey.eq k k then some v else none := by
  induction l with
  | nil => simp [assignEntry, lookupEntry]
  | cons e rest ih =>
    obtain ⟨k1, v1⟩ := e
    cases h : GoKey.eq k1 k
    · simp [assignEntry, lookupEntry, h, ih]
    · simp [assignEntry, lookupEntry, h, GoKey_eq_right h]

theorem lookupEntry_assignEntry_ne {K V : Type} [GoKey K] {j k : K}
    (h : GoKey.eq k j = false) (v : V) (l : List (K × V)) :
    lookupEntry j (assignEntry k v l) = lookupEntry j l := by
  induction l with
  | nil => simp [assignEntry, lookupEntry, h]
  | cons e rest ih =>
    obtain ⟨k1, v1⟩ := e
    cases h1 : GoKey.eq k1 k
    · simp [assignEntry, lookupEntry, h1, ih]
    · have h2 : GoKey.eq k1 j = false := by
        cases h3 : GoKey.eq k1 j
        · rfl
        · have := GoKey.trans k k1 j (GoKey.symm k1 k h1) h3
          rw [h] at this
          exact absurd this (by simp)
      simp [assignEntry, lookupEntry, h1, h2, h]

theorem lookupEntry_isSome_iff {K V : Type} [GoKey K] (k : K) (l : List (K × V)) :
    (lookupEntry k l).isSome = true ↔ ∃ x ∈ l.map Prod.fst, GoKey.eq x k = true := by
  induction l with
  | nil => simp [lookupEntry]
  | cons e rest ih =>
    obtain ⟨k1, v1⟩ := e
    cases h : GoKey.eq k1 k
    · simp only [lookupEntry, h, Bool.false_eq_true, if_false, ih, List.map_cons,
        List.mem_cons, exists_eq_or_imp, false_or]
    · simp [lookupEntry, h]

theorem assignEntry_key_mem {K V : Type} [GoKey K] (k : K) (v : V) (l : List (K × V)) :
    ∀ b ∈ (assignEntry k v l).map Prod.fst, b ∈ l.map Prod.fst ∨ b = k := by
  induction l with
  | nil => intro b hb; simpa [assignEntry] using hb
  | cons e rest ih =>
    obtain ⟨k1, v1⟩ := e
    intro b hb
    cases h : GoKey.eq k1 k
    · simp only [assignEntry, h, Bool.false_eq_true, if_false, List.map_cons,
        List.mem_cons] at hb ⊢
      rcases hb with hb | hb
      · exact Or.inl (Or.inl hb)
      · rcases ih b hb with h2 | h2
        · exact Or.inl (Or.inr h2)
        · exact Or.inr h2
    · simp only [assignEntry, h, if_true, List.map_cons, List.mem_cons] at hb ⊢
      rcases hb with hb | hb
      · exact Or.inr hb
      · exact Or.inl (Or.inr hb)

theorem assignEntry_pairwise {K V : Type} [GoKey K] (k : K) (v : V) (l : List (K × V))
    (h : (l.map Prod.fst).Pairwise (fun a b => GoKey.eq a b = false)) :
    ((assignEntry k v l).map Prod.fst).Pairwise (fun a b => GoKey.eq a b = false) := by
  induction l with
  | nil => simp [assignEntry]
  | cons e rest ih =>
    obtain ⟨k1, v1⟩ := e
    simp only [List.map_cons, List.pairwise_cons] at h
    obtain ⟨h1, h2⟩ := h
    cases hk : GoKey.eq k1 k
    · simp only [assignEntry, hk, Bool.false_eq_true, if_false, List.map_cons,
        List.pairwise_cons]
      refine ⟨fun b hb => ?_, ih h2⟩
      rcases assignEntry_key_mem k v rest b hb with hb | hb
      · exact h1 b hb
      · rw [hb]; exact hk
    · simp only [assignEntry, hk, if_true, List.map_cons, List.pairwise_cons]
      refine ⟨fun b hb => ?_, h2⟩
      cases h3 : GoKey.eq k b
      · rfl
      · have := GoKey.trans k1 k b hk h3
        rw [h1 b hb] at this
        exact absurd this (by simp)

theorem countP_keys {K V : Type} [GoKey K] (k : K) (l : List (K × V))
    (h : (l.map Prod.fst).Pairwise (fun a b => GoKey.eq a b = false)) :
    (l.map Prod.fst).countP (fun x => GoKey.eq x k) =
      if (lookupEntry k l).isSome then 1 else 0 := by
  induction l with
  | nil => simp [lookupEntry]
  | cons e rest ih =>
    obtain ⟨k1, v1⟩ := e
    simp only [List.map_cons, List.pairwise_cons] at h
    obtain ⟨h1, h2⟩ := h
    cases hk : GoKey.eq k1 k
    · simp [lookupEntry, hk, List.countP_cons, ih h2]
    · have hz : (rest.map Prod.fst).countP (fun x => GoKey.eq x k) = 0 := by
        rw [List.countP_eq_zero]
        intro b hb hbk
        have := GoKey.trans k1 k b hk (GoKey.symm b k hbk)
        rw [h1 b hb] at this
        exact absurd this (by simp)
      simp [lookupEntry, hk, List.countP_cons, hz]

/-- C11, as amended. `Set.Add` reports novelty: it returns true if and only if
`Has` of the key was false before the call; afterwards `Has` of the key is true
exactly when the key is `==` to itself (so for every key but a NaN), `Has` of
every key that is not `==` to it is what it was, and `Len` has grown by 1
exactly when true was returned (and is what it was otherwise). -/
theorem Set_Add_reports_novelty {T : Type} [GoKey T] (s : Set T) (k : T) :
    ((s.Add k).1 = true ↔ s.Has k = false) ∧
      (s.Add k).2.Has k = GoKey.eq k k ∧
      (GoKey.eq k k = true → (s.Add k).2.Has k = true) ∧
      (∀ j : T, GoKey.eq k j = false → (s.Add k).2.Has j = s.Has j) ∧
      ((s.Add k).2.Len = s.Len + 1 ↔ (s.Add k).1 = true) ∧
      ((s.Add k).1 = false → (s.Add k).2.Len = s.Len) := by
  have hlen := assignEntry_length k () s.m.entries
  have hself : (s.Add k).2.Has k = GoKey.eq k k := by
    simp only [Set.Add, Set.Has, GoMap.set, GoMap.get, lookupEntry_assignEntry_self]
    cases GoKey.eq k k <;> rfl
  refine ⟨?_, hself, fun h => by rw [hself, h], ?_, ?_, ?_⟩
  · simp only [Set.Add, Set.Has, GoMap.len, GoMap.set, GoMap.get]
    rw [hlen]
    cases h : (lookupEntry k s.m.entries).isSome <;> simp
  · intro j hj
    simp only [Set.Add, Set.Has, GoMap.set, GoMap.get]
    rw [lookupEntry_assignEntry_ne hj]
  · simp only [Set.Add, Set.Len, GoMap.len, GoMap.set]
    rw [hlen]
    cases h : (lookupEntry k s.m.entries).isSome <;> simp
  · simp only [Set.Add, Set.Len, GoMap.len, GoMap.set]
    rw [hlen]
    cases h : (lookupEntry k s.m.entries).isSome <;> simp

/-- Witness for C11: adding 5 to the set holding 3, then adding 5 again. -/
theorem Set_Add_reports_novelty_witness :
    ((NewSet.Add 3).2.Add 5).1 = true ∧ (((NewSet.Add 3).2.Add 5).2.Add 5).1 = false ∧
      ((NewSet.Add 3).2.Add 5).2.Len = 2 ∧ (((NewSet.Add 3).2.Add 5).2.Add 5).2.Len = 2 ∧
      GoKey.eq (5 : Nat) 5 = true ∧ ((NewSet.Add 3).2.Add (5 : Nat)).2.Has 5 = true ∧
      GoKey.eq (3 : Nat) 5 = false ∧
      ((NewSet.Add 3).2.Add (3 : Nat)).2.Has 5 = (NewSet.Add (3 : Nat)).2.Has 5 :=
  ⟨by decide, by decide, by decide, by decide, by decide,
    (Set_Add_reports_novelty (NewSet.Add 3).2 5).2.2.1 (by decide), by decide,
    (Set_Add_reports_novelty (NewSet.Add 3).2 3).2.2.2.1 5 (by decide)⟩

/-- C11 as stated fails at a NaN key of a `Set[float64]`: after `Add(NaN)` on a
fresh set `Has(NaN)` is false, and a second `Add(NaN)` returns true again and
takes `Len` to 2. -/
theorem Set_Add_NaN_counterexample :
    (NewSet.Add Float64.NaN).1 = true ∧
      (NewSet.Add Float64.NaN).2.Has Float64.NaN = false ∧
      ((NewSet.Add Float64.NaN).2.Add Float64.NaN).1 = true ∧
      ((NewSet.Add Float64.NaN).2.Add Float64.NaN).2.Len = 2 ∧
      ((NewSet.Add Float64.NaN).2.Add Float64.NaN).2.Has Float64.NaN = false ∧
      ¬ ∀ (s : Set Float64) (k : Float64), (s.Add k).2.Has k = true := by
  refine ⟨by decide, by decide, by decide, by decide, by decide, fun h => ?_⟩
  exact absurd (h NewSet Float64.NaN) (by decide)

/-- The fresh set is a well-formed map and `Add` keeps it so. -/
theorem Set_WF {T : Type} [GoKey T] :
    (NewSet : Set T).m.WF ∧ ∀ (s : Set T) (k : T), s.m.WF → (s.Add k).2.m.WF := by
  refine ⟨by simp [NewSet, GoMap.make, GoMap.WF], fun s k h => ?_⟩
  exact assignEntry_pairwise k () s.m.entries h

theorem foldl_append_singleton {T : Type} (l : List T) :
    ∀ init : List T, l.foldl (fun keys key => keys ++ [key]) init = init ++ l := by
  induction l with
  | nil => intro init; simp
  | cons x rest ih => intro init; simp [ih]

theorem Set_Keys_eq {T : Type} (order : List (T × Unit) → List (T × Unit)) (s : Set T) :
    s.Keys order = (order s.m.entries).map Prod.fst := by
  simp [Set.Keys, GoMap.rangeKeys, foldl_append_singleton]

/-- C15, as amended. `Set.Keys` returns all keys of the set: whatever order the
runtime visits the entries in, the length of the returned slice is `Len()`; for
every key `k` the slice holds exactly one element `==` to `k` if `Has(k)` and
none otherwise; its elements are pairwise not `==`; and when every element is
`==` to itself (the set holds no NaN) the slice has no duplicates and each of
its elements is a member. The set is only read. -/
theorem Set_Keys_all_keys {T : Type} [GoKey T]
    (order : List (T × Unit) → List (T × Unit)) (s : Set T)
    (hwf : s.m.WF) (hord : ∀ l, (order l).Perm l) :
    (s.Keys order).length = s.Len ∧
      (∀ k : T, (s.Keys order).countP (fun x => GoKey.eq x k) = if s.Has k then 1 else 0) ∧
      (∀ k : T, (∃ x ∈ s.Keys order, GoKey.eq x k = true) ↔ s.Has k = true) ∧
      (s.Keys order).Pairwise (fun a b => GoKey.eq a b = false) ∧
      ((∀ x ∈ s.Keys order, GoKey.eq x x = true) →
        (s.Keys order).Nodup ∧ ∀ x ∈ s.Keys order, s.Has x = true) := by
  have hp : (s.Keys order).Perm (s.m.entries.map Prod.fst) := by
    rw [Set_Keys_eq]; exact (hord s.m.entries).map Prod.fst
  have hsym : ∀ {x y : T}, GoKey.eq x y = false → GoKey.eq y x = false := by
    intro x y hxy
    cases h : GoKey.eq y x
    · rfl
    · rw [GoKey.symm y x h] at hxy
      exact absurd hxy (by simp)
  have hpw : (s.Keys order).Pairwise (fun a b => GoKey.eq a b = false) :=
    (hp.pairwise_iff hsym).2 hwf
  have hex : ∀ k : T, (∃ x ∈ s.Keys order, GoKey.eq x k = true) ↔ s.Has k = true := by
    intro k
    rw [Set.Has, GoMap.get, lookupEntry_isSome_iff]
    constructor
    · rintro ⟨x, hx, hxk⟩; exact ⟨x, hp.mem_iff.1 hx, hxk⟩
    · rintro ⟨x, hx, hxk⟩; exact ⟨x, hp.mem_iff.2 hx, hxk⟩
  refine ⟨?_, fun k => ?_, hex, hpw, fun hrefl => ⟨?_, fun x hx => ?_⟩⟩
  · rw [hp.length_eq]; simp [Set.Len, GoMap.len]
  · rw [hp.countP_eq, countP_keys k s.m.entries hwf]
    rfl
  · refine hpw.imp_of_mem ?_
    intro a b ha _ hab heq
    rw [← heq, hrefl a ha] at hab
    exact absurd hab (by simp)
  · exact (hex x).1 ⟨x, hx, hrefl x hx⟩

/-- Witness for C15: the set holding 3 and 5, visited in reverse order. -/
theorem Set_Keys_all_keys_witness :
    ((NewSet.Add 3).2.Add (5 : Nat)).2.m.WF ∧
      Set.Keys List.reverse ((NewSet.Add 3).2.Add (5 : Nat)).2 = [5, 3] ∧
      (Set.Keys List.reverse ((NewSet.Add 3).2.Add (5 : Nat)).2).length =
        ((NewSet.Add 3).2.Add (5 : Nat)).2.Len :=
  ⟨by decide, by decide,
    (Set_Keys_all_keys List.reverse ((NewSet.Add 3).2.Add (5 : Nat)).2 (by decide)
      (fun l => List.reverse_perm l)).1⟩

/-- C15 as stated fails on the `Set[float64]` obtained by `Add(NaN)` twice: the
slice `Keys()` returns is `[NaN, NaN]`, so it holds the same value twice, and
it holds a value, the NaN, for which `Has` is false. -/
theorem Set_Keys_NaN_counterexample :
    setNaNNaN = ((NewSet.Add Float64.NaN).2.Add Float64.NaN).2 ∧
      setNaNNaN.Keys id = [Float64.NaN, Float64.NaN] ∧
      ¬ (setNaNNaN.Keys id).Nodup ∧
      Float64.NaN ∈ setNaNNaN.Keys id ∧
      setNaNNaN.Has Float64.NaN = false ∧
      ¬ (∀ k : Float64, k ∈ setNaNNaN.Keys id ↔ setNaNNaN.Has k = true) := by
  refine ⟨rfl, by decide, by decide, by decide, by decide, fun h => ?_⟩
  exact absurd ((h Float64.NaN).1 (by decide)) (by decide)

/-- What `Map.GetOrSet` does: a present key gives its value with `loaded` false
and the map as it was; an absent key stores the value and gives it back with
`loaded` true. -/
theorem Map_GetOrSet_eq {K T : Type} [GoKey K] (s : Map K T) (k : K) (v : T) :
    (∀ w : T, s.Get k = some w → s.GetOrSet k v = ((w, false), s)) ∧
      (s.Get k = none → s.GetOrSet k v = ((v, true), s.Set k v)) := by
  constructor
  · intro w h
    simp only [Map.Get] at h
    simp [Map.GetOrSet, h]
  · intro h
    simp only [Map.Get] at h
    simp [Map.GetOrSet, h, Map.Set]

/-- C12 fails on the code: `Map.GetOrSet` returns `loaded` inverted. On the map
holding 10 under key 1, `GetOrSet(1, 20)` finds the key and loads 10, yet
returns `loaded = false`; on the empty map, `GetOrSet(1, 20)` stores 20 and
returns `loaded = true`. -/
theorem Map_GetOrSet_loaded_inverted :
    (NewMap.Set 1 10 : Map Nat Nat).Get 1 = some 10 ∧
      (NewMap.Set 1 10 : Map Nat Nat).GetOrSet 1 20 = ((10, false), NewMap.Set 1 10) ∧
      (NewMap : Map Nat Nat).Get 1 = none ∧
      (NewMap : Map Nat Nat).GetOrSet 1 20 = ((20, true), NewMap.Set 1 20) := by
  decide

/-! ## The throttle -/

theorem timeSub_ge_iff {t u i : Int} (hi : i ≤ maxDuration) (hu : u ≤ t) :
    timeSub t u ≥ i ↔ t - u ≥ i := by
  unfold timeSub
  unfold maxDuration at hi ⊢
  unfold minDuration
  split
  · omega
  · split <;> omega

theorem Throttle_call_eq (th : Throttle) (now : Int) (f : Nat) :
    th.call now f =
      if timeSub now th.lastRun ≥ th.interval then
        (true, { th with lastRun := now, ran := th.ran ++ [(f, now)] })
      else (false, th) := rfl

theorem Throttle_call_inv {th : Throttle} (now : Int) (f : Nat) (hI : th.Inv)
    (hi : th.interval ≤ maxDuration) (hn : th.lastRun ≤ now) :
    (th.call now f).2.Inv ∧ (th.call now f).2.interval = th.interval ∧
      (th.call now f).2.lastRun ≤ now := by
  rw [Throttle_call_eq]
  by_cases h : timeSub now th.lastRun ≥ th.interval
  · rw [if_pos h]
    have h2 := (timeSub_ge_iff hi hn).1 h
    obtain ⟨h3, h4, -⟩ := hI
    refine ⟨⟨?_, ?_, Or.inr ⟨f, by simp⟩⟩, rfl, le_refl _⟩
    · intro e he
      rcases List.mem_append.1 he with he | he
      · exact le_trans (h3 e he) hn
      · simp only [List.mem_singleton] at he
        rw [he]
    · refine List.pairwise_append.2 ⟨h4, List.pairwise_singleton _ _, fun a ha b hb => ?_⟩
      simp only [List.mem_singleton] at hb
      have := h3 a ha
      rw [hb]
      show now - a.2 ≥ th.interval
      omega
  · rw [if_neg h]
    exact ⟨hI, rfl, hn⟩

theorem Throttle_calls_inv (cs : List (Int × Nat)) :
    ∀ th : Throttle, th.Inv → th.interval ≤ maxDuration →
      List.Chain (fun a b => a ≤ b) th.lastRun (cs.map Prod.fst) →
      (th.calls cs).Inv ∧ (th.calls cs).interval = th.interval := by
  induction cs with
  | nil => intro th hI _ _; exact ⟨hI, rfl⟩
  | cons c rest ih =>
    intro th hI hi hc
    obtain ⟨now, f⟩ := c
    simp only [List.map_cons, List.chain_cons] at hc
    obtain ⟨h1, h2, h3⟩ := Throttle_call_inv now f hI hi hc.1
    have hc2 : List.Chain (fun a b => a ≤ b) (th.call now f).2.lastRun (rest.map Prod.fst) := by
      cases hr : rest.map Prod.fst with
      | nil => exact List.Chain.nil
      | cons x xs =>
        have hc3 := hc.2
        rw [hr, List.chain_cons] at hc3
        exact List.chain_cons.2 ⟨le_trans h3 hc3.1, hc3.2⟩
    obtain ⟨h4, h5⟩ := ih (th.call now f).2 h1 (by rw [h2]; exact hi) hc2
    exact ⟨h4, by rw [← h2]; exact h5⟩

/-- C13. `NewThrottle` never runs `f` more often than the interval. A call
returns true exactly when it runs `f` (logs it, at the instant of the call, and
moves `lastRun` there); a rejected call changes nothing. When the clock has not
gone back behind `lastRun`, the call runs `f` if and only if at least
`interval` has elapsed since `lastRun`. The first call, made at any instant a
real clock shows (more than the largest duration after the zero time), runs
`f`. After any calls made at non-decreasing instants, `lastRun` is the instant
of the latest run and any two runs are at least `interval` apart. -/
theorem Throttle_respects_interval :
    (∀ (th : Throttle) (now : Int) (f : Nat),
        ((th.call now f).1 = true →
          (th.call now f).2 = { th with lastRun := now, ran := th.ran ++ [(f, now)] }) ∧
        ((th.call now f).1 = false → (th.call now f).2 = th)) ∧
      (∀ (th : Throttle) (now : Int) (f : Nat), th.interval ≤ maxDuration → th.lastRun ≤ now →
        ((th.call now f).1 = true ↔ now - th.lastRun ≥ th.interval)) ∧
      (∀ (interval now : Int) (f : Nat), interval ≤ maxDuration → maxDuration ≤ now →
        ((NewThrottle interval).call now f).1 = true) ∧
      (∀ (interval : Int) (cs : List (Int × Nat)), interval ≤ maxDuration →
        List.Chain (fun a b => a ≤ b) 0 (cs.map Prod.fst) →
        ((NewThrottle interval).calls cs).ran.Pairwise (fun a b => b.2 - a.2 ≥ interval) ∧
        ((((NewThrottle interval).calls cs).ran = [] ∧
            ((NewThrottle interval).calls cs).lastRun = 0) ∨
          ∃ g : Nat, ((NewThrottle interval).calls cs).ran.getLast? =
            some (g, ((NewThrottle interval).calls cs).lastRun))) := by
  refine ⟨fun th now f => ?_, fun th now f hi hn => ?_, fun interval now f hi hn => ?_,
    fun interval cs hi hc => ?_⟩
  · rw [Throttle_call_eq]
    by_cases h : timeSub now th.lastRun ≥ th.interval
    · rw [if_pos h]; exact ⟨fun _ => rfl, fun h2 => by simp at h2⟩
    · rw [if_neg h]; exact ⟨fun h2 => by simp at h2, fun _ => rfl⟩
  · rw [← timeSub_ge_iff hi hn, Throttle_call_eq]
    by_cases h : timeSub now th.lastRun ≥ th.interval
    · rw [if_pos h]; exact ⟨fun _ => h, fun _ => rfl⟩
    · rw [if_neg h]; exact ⟨fun h2 => by simp at h2, fun h2 => absurd h2 h⟩
  · have h0 : (0 : Int) ≤ now := le_trans (by decide) hn
    have h : timeSub now (NewThrottle interval).lastRun ≥ (NewThrottle interval).interval := by
      refine (timeSub_ge_iff hi h0).2 ?_
      show now - 0 ≥ interval
      omega
    rw [Throttle_call_eq, if_pos h]
  · have hI : (NewThrottle interval).Inv :=
      ⟨by simp [NewThrottle], by simp [NewThrottle], Or.inl ⟨rfl, rfl⟩⟩
    obtain ⟨⟨-, h2, h3⟩, h4⟩ := Throttle_calls_inv cs (NewThrottle interval) hI hi hc
    rw [h4] at h2
    exact ⟨h2, h3⟩

/-- Witness for C13: interval 10, calls at a real instant `t`, `t + 3`, `t + 10`
and `t + 20`; the second is rejected. -/
theorem Throttle_respects_interval_witness :
    ((NewThrottle 10).calls [(9223372036854775807, 1), (9223372036854775810, 2),
        (9223372036854775817, 3), (9223372036854775827, 4)]).ran =
        [(1, 9223372036854775807), (3, 9223372036854775817), (4, 9223372036854775827)] ∧
      ((NewThrottle 10).call 9223372036854775807 1).1 = true ∧
      ((NewThrottle 10).calls [(9223372036854775807, 1), (9223372036854775810, 2),
        (9223372036854775817, 3), (9223372036854775827, 4)]).ran.Pairwise
        (fun a b => b.2 - a.2 ≥ 10) :=
  ⟨by decide, Throttle_respects_interval.2.2.1 10 9223372036854775807 1 (by decide) (by decide),
    (Throttle_respects_interval.2.2.2 10 _ (by decide) (by simp)).1⟩

/-! ## The debouncer -/

theorem stopped_not_due {old : List Timer} (h : ∀ t ∈ old, t.status = .stopped) (now : Int) :
    old.map (fun t => if t.due now then { t with status := .fired } else t) = old ∧
      old.filter (Timer.due now) = [] := by
  induction old with
  | nil => simp
  | cons x rest ih =>
    have hx : x.due now = false := by
      simp [Timer.due, h x (List.mem_cons_self x rest)]
    obtain ⟨h1, h2⟩ := ih (fun t ht => h t (List.mem_cons_of_mem x ht))
    simp [hx, h1, h2]

/-- Before its deadline an armed debouncer does not change. -/
theorem Armed_elapse_before {d : Debouncer} {deadline : Int} {f : Nat}
    (hA : d.Armed deadline f) {now : Int} (hn : now < deadline) : d.elapse now = d := by
  obtain ⟨old, hold, htm, -, hran⟩ := hA
  obtain ⟨h1, h2⟩ := stopped_not_due hold now
  have hd : Timer.due now { deadline := deadline, f := f, status := .pending, C := none } =
      false := by
    simp [Timer.due]; omega
  cases d
  simp only at htm hran
  subst htm; subst hran
  simp [Debouncer.elapse, h1, h2, hd]

/-- From its deadline on an armed debouncer has run its function, once. -/
theorem Armed_elapse_after {d : Debouncer} {deadline : Int} {f : Nat}
    (hA : d.Armed deadline f) {now : Int} (hn : deadline ≤ now) :
    (d.elapse now).ran = [(f, deadline)] ∧
      ∀ later : Int, ((d.elapse now).elapse later).ran = [(f, deadline)] := by
  obtain ⟨old, hold, htm, -, hran⟩ := hA
  have hd : Timer.due now { deadline := deadline, f := f, status := .pending, C := none } =
      true := by
    simp [Timer.due]; omega
  have hfired : ∀ later : Int,
      Timer.due later { deadline := deadline, f := f, status := .fired, C := none } = false := by
    intro later; simp [Timer.due]
  cases d
  simp only at htm hran
  subst htm; subst hran
  refine ⟨?_, fun later => ?_⟩
  · simp [Debouncer.elapse, (stopped_not_due hold now).2, hd]
  · simp [Debouncer.elapse, (stopped_not_due hold now).1, (stopped_not_due hold now).2,
      (stopped_not_due hold later).2, hd, hfired]

/-- A call on an armed debouncer stops the pending timer and arms a new one. -/
theorem Armed_call {d : Debouncer} {deadline : Int} {f : Nat} (hA : d.Armed deadline f)
    (now : Int) (g : Nat) :
    ∃ d1, d.call now g = some d1 ∧ d1.after = d.after ∧ d1.Armed (now + timerDelay d.after) g ∧
      d1.timers.length = d.timers.length + 1 := by
  obtain ⟨old, hold, htm, hp, hran⟩ := hA
  cases d with
  | mk after timer timers ran =>
    simp only at htm hp hran
    subst htm; subst hp; subst hran
    refine ⟨⟨after, some (old.length + 1),
      (old ++ [{ deadline := deadline, f := f, status := .stopped, C := none }]) ++
        [{ deadline := now + timerDelay after, f := g, status := .pending, C := none }], []⟩, ?_, rfl,
      ⟨old ++ [{ deadline := deadline, f := f, status := .stopped, C := none }],
        ?_, rfl, ?_, rfl⟩, ?_⟩
    · simp [Debouncer.call, Debouncer.Stop, Debouncer.AfterFunc]
    · intro t ht
      rcases List.mem_append.1 ht with h | h
      · exact hold t h
      · simp only [List.mem_singleton] at h
        rw [h]
    · simp
    · simp

/-- The first call arms the debouncer. -/
theorem NewDebouncer_callAt (after now : Int) (f : Nat) :
    ∃ d, (NewDebouncer after).callAt now f = some d ∧ d.after = after ∧
      d.Armed (now + timerDelay after) f ∧ d.timers.length = 1 :=
  ⟨_, rfl, rfl, ⟨[], by simp, rfl, rfl, rfl⟩, rfl⟩

/-- A timer made by `AfterFunc` never expires before the call that makes it,
whatever the duration: with a negative duration it expires at the call. -/
theorem AfterFunc_deadline (d : Debouncer) (now : Int) (f : Nat) :
    (d.AfterFunc now f).2.timers =
        d.timers ++ [{ deadline := now + timerDelay d.after, f := f, status := .pending,
                       C := none }] ∧
      now ≤ now + timerDelay d.after ∧
      (d.after ≤ 0 → now + timerDelay d.after = now) ∧
      (0 ≤ d.after → now + timerDelay d.after = now + d.after) := by
  refine ⟨rfl, ?_, ?_, ?_⟩ <;> unfold timerDelay <;> split <;> omega

/-- A burst of calls on an armed debouncer leaves it armed for the last call. -/
theorem Armed_callsAt (cs : List (Int × Nat)) :
    ∀ (d : Debouncer) (c : Int × Nat), d.Armed (c.1 + timerDelay d.after) c.2 →
      List.Chain (fun a b => b.1 < a.1 + timerDelay d.after) c cs →
      ∃ d1, d.callsAt cs = some d1 ∧ d1.after = d.after ∧
        d1.Armed ((lastCall c cs).1 + timerDelay d.after) (lastCall c cs).2 ∧
        d1.timers.length = d.timers.length + cs.length := by
  induction cs with
  | nil => intro d c hA _; exact ⟨d, rfl, rfl, hA, rfl⟩
  | cons x rest ih =>
    intro d c hA hc
    obtain ⟨now, g⟩ := x
    obtain ⟨hlt, hrest⟩ := List.chain_cons.1 hc
    obtain ⟨d1, h1, h2, h3, h4⟩ := Armed_call hA now g
    have hrun : d.callAt now g = some d1 := by
      rw [Debouncer.callAt, Armed_elapse_before hA hlt]; exact h1
    obtain ⟨d2, k1, k2, k3, k4⟩ := ih d1 (now, g) (by rw [h2]; exact h3) (by rw [h2]; exact hrest)
    refine ⟨d2, ?_, by rw [k2, h2], by rw [h2] at k3; exact k3, ?_⟩
    · simp only [Debouncer.callsAt, hrun, Option.some_bind]
      exact k1
    · rw [k4, h4, List.length_cons]; omega

/-- C14. `NewDebouncer` coalesces a burst, for a duration `after` that is not
negative: if every call after the first one is made before the deadline of the
call before it (less than `after` after it), no call blocks, every timer but the last has been stopped without running its
function, and the function passed to the last call, and no other, runs exactly
once, `after` after the last call: nothing has run before that instant and
from that instant on the log holds that one run. -/
theorem Debouncer_coalesces_burst (after : Int) (c : Int × Nat) (cs : List (Int × Nat))
    (hafter : 0 ≤ after) (h : List.Chain (fun a b => b.1 < a.1 + after) c cs) :
    ∃ d, (NewDebouncer after).callsAt (c :: cs) = some d ∧
      d.ran = [] ∧
      d.timers.length = cs.length + 1 ∧
      (∀ i : Nat, i < cs.length → (d.timers[i]?).map Timer.status = some .stopped) ∧
      d.timer = some cs.length ∧
      d.timers[cs.length]? = some { deadline := (lastCall c cs).1 + after,
                                    f := (lastCall c cs).2, status := .pending, C := none } ∧
      (∀ now : Int, now < (lastCall c cs).1 + after → (d.elapse now).ran = []) ∧
      (∀ now : Int, (lastCall c cs).1 + after ≤ now →
        (d.elapse now).ran = [((lastCall c cs).2, (lastCall c cs).1 + after)] ∧
        ∀ later : Int, ((d.elapse now).elapse later).ran =
          [((lastCall c cs).2, (lastCall c cs).1 + after)]) := by
  obtain ⟨t, f⟩ := c
  have hdelay : timerDelay after = after := by
    unfold timerDelay
    split <;> omega
  obtain ⟨d0, h1, h2, h3, h4⟩ := NewDebouncer_callAt after t f
  rw [hdelay] at h3
  obtain ⟨d, k1, k2, k3, k4⟩ := Armed_callsAt cs d0 (t, f) (by rw [h2, hdelay]; exact h3)
    (by rw [h2, hdelay]; exact h)
  rw [h2, hdelay] at k3
  have hrun : (NewDebouncer after).callsAt ((t, f) :: cs) = some d := by
    simp only [Debouncer.callsAt, h1, Option.some_bind]
    exact k1
  obtain ⟨old, hold, htm, hp, hran⟩ := k3
  have hlen : old.length = cs.length := by
    have := k4
    rw [htm, h4] at this
    simp only [List.length_append, List.length_singleton] at this
    omega
  have hA : d.Armed ((lastCall (t, f) cs).1 + after) (lastCall (t, f) cs).2 :=
    ⟨old, hold, htm, hp, hran⟩
  refine ⟨d, hrun, hran, by rw [k4, h4]; omega, fun i hi => ?_, by rw [hp, hlen], ?_,
    fun now hn => ?_, fun now hn => Armed_elapse_after hA hn⟩
  · have hi2 : i < old.length := by omega
    rw [htm, List.getElem?_append_left hi2, List.getElem?_eq_getElem hi2]
    simp only [Option.map_some']
    rw [hold _ (List.getElem_mem hi2)]
  · rw [htm, ← hlen]
    simp
  · rw [Armed_elapse_before hA hn]; exact hran

/-- Witness for C14: `after` is 10 and the calls are made at 0, 5 and 14; the
third function runs at 24. -/
theorem Debouncer_coalesces_burst_witness :
    (0 : Int) ≤ 10 ∧
      List.Chain (fun a b : Int × Nat => b.1 < a.1 + 10) (0, 1) [(5, 2), (14, 3)] ∧
      ((NewDebouncer 10).callsAt [(0, 1), (5, 2), (14, 3)]).map (fun d => (d.elapse 24).ran) =
        some [(3, 24)] ∧
      ∃ d, (NewDebouncer 10).callsAt [(0, 1), (5, 2), (14, 3)] = some d ∧ d.ran = [] :=
  ⟨by decide, by simp, by decide,
    (Debouncer_coalesces_burst 10 (0, 1) [(5, 2), (14, 3)] (by decide) (by simp)).imp
      fun _ hd => ⟨hd.1, hd.2.1⟩⟩

/-- A call of the debounced function whose previous timer has fired blocks for
ever: `Stop` returns false and the receive is from the nil channel of an
`AfterFunc` timer. -/
theorem Debouncer_call_after_fired {d : Debouncer} {p : Nat} {t : Timer}
    (hp : d.timer = some p) (ht : d.timers[p]? = some t) (hf : t.status = .fired)
    (hC : t.C = none) (now : Int) (f : Nat) : d.call now f = none := by
  simp [Debouncer.call, hp, Debouncer.Stop, ht, hf, Debouncer.recvC, hC]

/-- C16 fails on the code. With `after` 10, a first call at 0 arms a timer that
fires at 10 and runs function 1; the next call, at 30, finds the timer fired,
`Stop` returns false, and the call receives from the timer's nil channel: it
blocks for ever and function 2 is never scheduled. -/
theorem Debouncer_blocks_after_fired :
    (NewDebouncer 10).callAt 0 1 = some debouncerArmed ∧
      debouncerArmed.elapse 30 = debouncerFired ∧
      debouncerFired.Stop 0 = (false, debouncerFired) ∧
      (debouncerFired.timers[0]?).map Timer.C = some none ∧
      debouncerFired.recvC 0 = none ∧
      debouncerFired.call 30 2 = none ∧
      debouncerArmed.callAt 30 2 = none ∧
      (NewDebouncer 10).callsAt [(0, 1), (30, 2)] = none := by
  decide

end Osync
